import Mathlib

/-!
Verification development for the `atomkraft` testnet orchestrator
(`src/atomkraft/chain/testnet.py`).

The Python class `Testnet` drives an offline genesis ceremony over N
validator nodes (`prepare`), starts/stops them (`spinup`/`teardown`) and
submits transactions (`broadcast_transaction`).  This file gives a shallow
embedding of that code: `prepare` is translated into a pure function over an
explicit node-state map which also emits a trace of the externally visible
operations (binary invocations, file copies, config edits), and the theorems
below settle the specification claims against it.

The operations of one node (`Node.init`, `add_account`, `add_validator`,
`copy_genesis_from`, `copy_gentx_from`, `collect_gentx`, `sign`, `close`)
live in `node.py`, which is not part of the given sources; they are modelled
from the specification (section 4.4) and carry a doc comment saying so.
Everything else is translated from `testnet.py`.
-/

namespace Atomkraft

/-- A network address `host:port`, the decoded value of config fields such as
`tcp://0.0.0.0:26656`. -/
structure Addr where
  host : String
  port : Nat
deriving DecidableEq, Repr

/-- A decoded value inside a structured (TOML/JSON) config document. -/
inductive CVal where
  | str : String → CVal
  | addr : Addr → CVal
  | int : Int → CVal
  | bool : Bool → CVal
deriving DecidableEq, Repr

/-- Modelled from the spec: `update_port` from `utils.py` (absent from the
sources) rewrites the port of a network-address value, keeping the host; any
non-address value is left unchanged. -/
def update_port : CVal → Nat → CVal
  | .addr a, p => .addr ⟨a.host, p⟩
  | v, _ => v

/-- One entry of the static port table: `ConfigPort(title, config_file,
property_path)` (testnet.py line 120 ff.). -/
structure ConfigPort where
  title : String
  config_file : String
  property_path : String
deriving DecidableEq, Repr

/-- The static port-name table `Testnet.ports()` (testnet.py lines 116-140):
eight roles, five in `config/config.toml` and three in `config/app.toml`, in
the declared order of the Python dict. -/
def portsTable : List (String × ConfigPort) :=
  [("p2p", ⟨"P2P", "config/config.toml", "p2p.laddr"⟩),
   ("abci", ⟨"ABCI", "config/config.toml", "proxy_app"⟩),
   ("pprof_laddr", ⟨"PPROF", "config/config.toml", "rpc.pprof_laddr"⟩),
   ("rpc", ⟨"RPC", "config/config.toml", "rpc.laddr"⟩),
   ("prometheus", ⟨"Prometheus", "config/config.toml",
      "instrumentation.prometheus_listen_addr"⟩),
   ("lcd", ⟨"LCD", "config/app.toml", "api.address"⟩),
   ("grpc", ⟨"gRPC", "config/app.toml", "grpc.address"⟩),
   ("grpc-web", ⟨"gRPC", "config/app.toml", "grpc-web.address"⟩)]

/-- The roles themselves, in declared order. -/
def portRoles : List ConfigPort := portsTable.map Prod.snd

/-- Number of declared port roles; `len(self.ports())` in the source. -/
def numRoles : Nat := portRoles.length

/-- Binary-assigned default port for the role at index `j` of the declared
order (the chain binary writes a fixed default into each fresh config). -/
def defaultPort (j : Nat) : Nat := 26650 + j

/-- Bech32-style account address of the identity with the given id.  The
spec (section 4.3) makes `address(prefix)` a pure deterministic function of
`(seed, coinType, id)`; the concrete formatting is external (terra-sdk), so
an injective symbolic form is used. -/
def addrOf (id : Nat) : String :=
  "addr/" ++ toString id

/-- Operator (valoper) address of a validator id. -/
def valoperOf (id : Nat) : String := "valoper/" ++ toString id

/-- One signed self-staking transaction (gentx) as decoded content: the
validator it registers, its operator address, the self-stake amount/denom,
the embedded memo address, and whether the current bytes carry a valid
signature (an in-place edit invalidates it; `sign` restores it). -/
structure Gentx where
  valId : Nat
  opAddr : String
  stake : Nat
  denom : String
  memo : Addr
  signed : Bool
deriving DecidableEq, Repr

/-- Decoded content of one node's genesis document: chain parameters (the
applied overrides), funded balances in application order, and the validator
set folded in by `collect_gentx`. -/
structure Genesis where
  chainId : String
  params : List (String × CVal)
  balances : List (String × Nat)
  gentxs : List Gentx
deriving DecidableEq, Repr

/-- State of one validator node's working directory. -/
structure NodeSt where
  moniker : String
  genesis : Genesis
  config : List ((String × String) × CVal)
  gentxDir : List Gentx
  hasKey : Bool
  started : Bool
deriving DecidableEq, Repr

/-- Upsert into an association list keyed by (file, path): replaces the
value under an existing key, appends otherwise. -/
def setKV (cfg : List ((String × String) × CVal)) (file path : String)
    (v : CVal) : List ((String × String) × CVal) :=
  if cfg.any (fun e => e.1 = (file, path)) then
    cfg.map (fun e => if e.1 = (file, path) then (e.1, v) else e)
  else
    cfg ++ [((file, path), v)]

/-- Look up a config value by (file, path). -/
def getKV (cfg : List ((String × String) × CVal)) (file path : String) :
    Option CVal :=
  (cfg.find? (fun e => e.1 = (file, path))).map Prod.snd

/-- Modelled from the spec: `ConfigStore.set` scoped to one node
(section 4.2); mutation preserves all untouched content. -/
def NodeSt.set (n : NodeSt) (file path : String) (v : CVal) : NodeSt :=
  { n with config := setKV n.config file path v }

/-- Modelled from the spec: `ConfigStore.get` scoped to one node. -/
def NodeSt.get (n : NodeSt) (file path : String) : Option CVal :=
  getKV n.config file path

/-- Modelled from the spec: `ConfigStore.update` scoped to one node: read,
transform, write back in place. -/
def NodeSt.update (n : NodeSt) (file path : String) (f : CVal → CVal) :
    NodeSt :=
  { n with
    config := n.config.map
      (fun e => if e.1 = (file, path) then (e.1, f e.2) else e) }

/-- The port (number) a node's config holds for a role, 0 if absent. -/
def NodeSt.portOf (n : NodeSt) (p : ConfigPort) : Nat :=
  match n.get p.config_file p.property_path with
  | some (.addr a) => a.port
  | _ => 0

/-- The config documents a fresh `init` leaves behind: every declared port
role at its binary-assigned default. -/
def defaultConfig : List ((String × String) × CVal) :=
  portRoles.enum.map
    (fun e => ((e.2.config_file, e.2.property_path),
               .addr ⟨"0.0.0.0", defaultPort e.1⟩))

/-- Modelled from the spec: `Node.init()` (section 4.4) invokes the binary's
initialization command, producing a default genesis and a default config
whose port fields carry the binary-assigned defaults.  Fresh default
genesis documents are node-specific (mutually inconsistent across nodes,
spec section 4.5 step 1). -/
def nodeInit (id : Nat) (chainId : String) : NodeSt :=
  { moniker := "node_" ++ toString id
    genesis :=
      { chainId := chainId
        params := [("moniker", .str ("node_" ++ toString id))]
        balances := []
        gentxs := [] }
    config := defaultConfig
    gentxDir := []
    hasKey := false
    started := false }

/-- Modelled from the spec: `Node.add_account` (section 4.4) mutates the
local genesis to fund an account with the given coin. -/
def addAccountOp (n : NodeSt) (address : String) (amount : Nat) : NodeSt :=
  { n with genesis :=
      { n.genesis with balances := n.genesis.balances ++ [(address, amount)] } }

/-- Modelled from the spec: `Node.copy_genesis_from(other)` overwrites the
local genesis with another node's. -/
def copyGenesisOp (n : NodeSt) (src : NodeSt) : NodeSt :=
  { n with genesis := src.genesis }

/-- Modelled from the spec: `Node.add_key` registers the validator's key in
the node's keyring. -/
def addKeyOp (n : NodeSt) : NodeSt := { n with hasKey := true }

/-- Modelled from the spec: `Node.add_validator` (section 4.4) stages a
locally-signed self-staking transaction (gentx) under the node's gentx
directory.  The binary stamps a default memo address; the p2p port it
advertises is the binary default, which is why non-lead nodes must rewrite
it afterwards (spec section 4.5 step 7). -/
def addValidatorOp (n : NodeSt) (valId : Nat) (amount : Nat) (denom : String) :
    NodeSt :=
  let g : Gentx :=
    ⟨valId, valoperOf valId, amount, denom, ⟨"0.0.0.0", defaultPort 0⟩, true⟩
  { n with gentxDir := n.gentxDir ++ [g] }

/-- In-place rewrite of the memo of the gentx file(s) in this node's gentx
directory to carry the given p2p port (testnet.py line 267 applies
`update_port` to `body.memo`).  At the time of the call the directory holds
exactly this node's own gentx.  An edit after signing invalidates the
signature (spec section 4.4 `sign`). -/
def rewriteGentxMemoOp (n : NodeSt) (port : Nat) : NodeSt :=
  { n with gentxDir :=
      (n.gentxDir.map
        (fun g => { g with memo := ⟨g.memo.host, port⟩, signed := false })) }

/-- Modelled from the spec: `Node.sign(account, file)` re-signs the gentx
file in place, restoring a valid signature. -/
def signGentxOp (n : NodeSt) : NodeSt :=
  { n with gentxDir := n.gentxDir.map (fun g => { g with signed := true }) }

/-- Modelled from the spec: `Node.copy_gentx_from(other)` imports one peer's
signed gentx (the peer's own, identified by its validator id) into the
local gentx directory. -/
def copyGentxOp (n : NodeSt) (srcId : Nat) (src : NodeSt) : NodeSt :=
  { n with gentxDir :=
      n.gentxDir ++ src.gentxDir.filter (fun g => g.valId = srcId) }

/-- Possible failures of the modelled operations, named after the spec's
error taxonomy (section 7).  `broadcast_transaction`'s missing-mnemonic
`ValueError` (testnet.py line 311) is the taxonomy's `ConfigurationError`;
an empty validator list makes the constructor's `self._validator_ids[0]`
raise `IndexError`, an invalid construction input. -/
inductive AtomError where
  | configurationError (msg : String)
  | resourceExhausted
  | bootstrapFailure (node : Nat)
  | attributeError (msg : String)
deriving DecidableEq, Repr

/-- Modelled from the spec: `Node.collect_gentx()` (section 4.4) invokes the
binary's genesis-collection command, folding every locally present gentx
into this node's genesis; it fails (`BootstrapFailure`) if any present
gentx is malformed, i.e. carries an invalidated signature. -/
def collectGentxOp (id : Nat) (n : NodeSt) : Except AtomError NodeSt :=
  if n.gentxDir.all (fun g => g.signed) then
    .ok { n with genesis := { n.genesis with gentxs := n.gentxDir } }
  else
    .error (.bootstrapFailure id)

/-- Modelled from the spec: `Node.close()` terminates the node's process;
idempotent and total (never fails on an unstarted node). -/
def closeNode (n : NodeSt) : NodeSt := { n with started := false }

/-- Modelled from the spec: `Node.start()` spawns the process. -/
def startNode (n : NodeSt) : NodeSt := { n with started := true }

/-- Helper for `dedupKeys`: keep each key not seen before, remembering the
seen ones. -/
def dedupKeysAux : List Nat → List Nat → List Nat
  | [], _ => []
  | a :: as, seen =>
    if seen.contains a then dedupKeysAux as seen
    else a :: dedupKeysAux as (a :: seen)

/-- Key order of a Python dict comprehension over a list: first occurrence
of each key, in list order.  `finalize_accounts` and `prepare` build the
`validators` / `validator_nodes` dicts this way (testnet.py lines 95-103
and 154-166), so all ceremony loops iterate the deduplicated id list. -/
def dedupKeys (l : List Nat) : List Nat := dedupKeysAux l []

/-- Construction-time input of a `Testnet` relevant to the ceremony
(testnet.py `__init__`): validator and account ids, chain id, denom, the
genesis/config override tables and the two balances. -/
structure PrepCfg where
  chainId : String
  validatorIds : List Nat
  accountIds : List Nat
  denom : String
  configGenesis : List (String × CVal)
  configNode : List (String × List (String × CVal))
  accountBalance : Nat
  validatorBalance : Nat
deriving Repr

/-- The argument form of `set_validators` / `set_accounts`: an int is
expanded to `list(range(n))` (testnet.py lines 69-84). -/
inductive ValidatorsArg where
  | count (n : Nat)
  | ids (l : List Nat)
deriving Repr

/-- The id list an argument denotes: an int `n` is `list(range(n))`
(testnet.py lines 77-83). -/
def validatorsList : ValidatorsArg → List Nat
  | .count n => List.range n
  | .ids l => l

/-- Translation of `Testnet.set_validators` (testnet.py lines 77-84): store
the id list and make its element 0 the lead validator
(`self._lead_validator = self._validator_ids[0]`); on an empty list the
subscript raises `IndexError`, modelled as a `ConfigurationError`. -/
def set_validators (arg : ValidatorsArg) :
    Except AtomError (List Nat × Nat) :=
  match validatorsList arg with
  | [] => .error (.configurationError "IndexError: list index out of range")
  | h :: t => .ok (h :: t, h)

/-- Externally visible operations performed by `prepare()`, in program
order; each event names the node whose working directory it touches
(the destination node, for the two copy operations). -/
inductive Event where
  | initEv (node : Nat)
  | setGenesisParam (node : Nat) (key : String)
  | addAccount (node : Nat) (address : String) (amount : Nat)
  | copyGenesisFrom (dst : Nat) (src : Nat)
  | setConfig (node : Nat) (file : String) (key : String)
  | updatePortField (node : Nat) (file : String) (path : String) (port : Nat)
  | addKey (node : Nat)
  | addValidator (node : Nat) (amount : Nat)
  | updateGentxMemo (node : Nat) (port : Nat)
  | signGentx (node : Nat) (signer : Nat)
  | copyGentxFrom (dst : Nat) (src : Nat)
  | collectGentx (node : Nat)
deriving DecidableEq, Repr

/-- Node-state map: iteration order (the dict's key list) is carried
separately; the map itself is a function from validator id to state. -/
abbrev NodeMap := Nat → NodeSt

/-- Point update of the node map. -/
def updateAt (f : NodeMap) (a : Nat) (g : NodeSt → NodeSt) : NodeMap :=
  fun x => if x = a then g (f x) else f x

/-- A loop `for node_id, node in items: node_id ↦ op(node)` in which every
iteration touches only its own node: a fold of point updates. -/
def foldUpdates (l : List (Nat × (NodeSt → NodeSt))) (f : NodeMap) : NodeMap :=
  l.foldl (fun f e => updateAt f e.1 e.2) f

/-- Applying the declared genesis parameter overrides (testnet.py lines
171-174): `node.set(Path("config/genesis.json"), v, k)` on the lead,
one upsert into the genesis document per declared `(k, v)`. -/
def setParam (ps : List (String × CVal)) (k : String) (v : CVal) :
    List (String × CVal) :=
  if ps.any (fun e => e.1 = k) then
    ps.map (fun e => if e.1 = k then (k, v) else e)
  else ps ++ [(k, v)]

/-- One genesis-document override on one node. -/
def setGenesisParamOp (n : NodeSt) (k : String) (v : CVal) : NodeSt :=
  { n with genesis := { n.genesis with params := setParam n.genesis.params k v } }

/-- All declared genesis overrides, applied in declaration order. -/
def applyGenesisOverrides (cfg : PrepCfg) (n : NodeSt) : NodeSt :=
  cfg.configGenesis.foldl (fun n kv => setGenesisParamOp n kv.1 kv.2) n

/-- Modelled from the spec: `get_free_ports(n)` from `utils.py` (absent
from the sources) returns `n` ports the OS currently reports free, failing
with `ResourceExhausted` when the OS yields fewer (spec section 4.1).  The
ports the OS would yield are passed in as the `supply` oracle. -/
def get_free_ports (supply : List Nat) (n : Nat) :
    Except AtomError (List Nat) :=
  if n ≤ supply.length then .ok (supply.take n) else .error .resourceExhausted

/-- The numpy `reshape((-1, len(self.ports())))` of the flat allocated port
list (testnet.py lines 193-197): row `i` holds the ports at flat indices
`i * numRoles .. i * numRoles + numRoles - 1`. -/
def chunkRows (flat : List Nat) (m : Nat) : List (List Nat) :=
  (List.range m).map (fun i => (flat.drop (i * numRoles)).take numRoles)

/-- The declared per-node config overrides for one node (testnet.py lines
202-208): for every `(config_file, configs)` and every `(k, v)` in it,
`node.set(Path(f"config/{config_file}.toml"), v, k)`. -/
def applyNodeOverrides (cfg : PrepCfg) (n : NodeSt) : NodeSt :=
  cfg.configNode.foldl
    (fun n fc =>
      fc.2.foldl
        (fun n kv => n.set ("config/" ++ fc.1 ++ ".toml") kv.1 kv.2) n)
    n

/-- The override events for one node, in declaration order. -/
def overrideEventsFor (cfg : PrepCfg) (a : Nat) : List Event :=
  cfg.configNode.flatMap
    (fun fc => fc.2.map
      (fun kv => Event.setConfig a ("config/" ++ fc.1 ++ ".toml") kv.1))

/-- Rewriting one node's listening-address fields to the ports of one
allocated row (testnet.py lines 210-217): for `j, e_port` in the declared
role order, `node.update(e_port.config_file, lambda x: update_port(x,
ports[j]), e_port.property_path)`. -/
def applyPortRow (row : List Nat) (n : NodeSt) : NodeSt :=
  portRoles.enum.foldl
    (fun n jp =>
      n.update jp.2.config_file jp.2.property_path
        (fun x => update_port x (row.getD jp.1 0)))
    n

/-- The port-rewrite events for one node and one row, in role order. -/
def portEventsFor (a : Nat) (row : List Nat) : List Event :=
  portRoles.enum.map
    (fun jp => Event.updatePortField a jp.2.config_file jp.2.property_path
      (row.getD jp.1 0))

/-- The `p2p` entry of the port table, `self.ports()["p2p"]`. -/
def p2pRole : ConfigPort :=
  ((portsTable.find? (fun e => e.1 = "p2p")).map Prod.snd).getD ⟨"", "", ""⟩

/-- The single gentx a node's own directory holds at the end of the gentx
step, as a function of its pre-step state `n`: the lead keeps the
binary-stamped default memo; a non-lead's memo carries its own p2p port,
read from its (already rewritten) config. -/
def gtxOf (cfg : PrepCfg) (lead a : Nat) (n : NodeSt) : Gentx :=
  if a = lead then
    ⟨a, valoperOf a, cfg.validatorBalance, cfg.denom,
      ⟨"0.0.0.0", defaultPort 0⟩, true⟩
  else
    ⟨a, valoperOf a, cfg.validatorBalance, cfg.denom,
      ⟨"0.0.0.0", n.portOf p2pRole⟩, true⟩

/-- The gentx step for one node (testnet.py lines 252-268): `add_key`,
`add_validator` with the validator balance; a non-lead node then locates
its own gentx file, rewrites its memo to carry the port part of its own
p2p listening address, and re-signs it with its own validator key. -/
def gentxNodeOp (cfg : PrepCfg) (lead : Nat) (a : Nat) (n : NodeSt) : NodeSt :=
  let n := addKeyOp n
  let n := addValidatorOp n a cfg.validatorBalance cfg.denom
  if a ≠ lead then
    signGentxOp (rewriteGentxMemoOp n (n.portOf p2pRole))
  else n

/-- The gentx-step events for one node; `entry` is the node's state at the
start of the phase (its config, which the p2p read consults, is not
touched by this phase). -/
def gentxEventsFor (cfg : PrepCfg) (lead : Nat) (a : Nat) (entry : NodeSt) :
    List Event :=
  [Event.addKey a, Event.addValidator a cfg.validatorBalance] ++
    (if a ≠ lead then
      [Event.updateGentxMemo a (entry.portOf p2pRole), Event.signGentx a a]
    else [])

/-- One import step of the all-pairs exchange (testnet.py lines 270-273):
`node_a.copy_gentx_from(node_b)`. -/
def importStep (f : NodeMap) (a b : Nat) : NodeMap :=
  updateAt f a (fun n => copyGentxOp n b (f b))

/-- The ordered pairs visited by the exchange double loop: outer `id_a`,
inner `id_b`, skipping equal ids. -/
def exchangePairs (vids : List Nat) : List (Nat × Nat) :=
  vids.flatMap
    (fun a => (vids.filter (fun b => b ≠ a)).map (fun b => (a, b)))

/-- Folding a list of (dst, src) import steps over the node map. -/
def exchangeFold (P : List (Nat × Nat)) (f : NodeMap) : NodeMap :=
  P.foldl (fun f p => importStep f p.1 p.2) f

/-- The all-pairs gentx exchange as a fold over the visited pairs. -/
def phaseExchange (vids : List Nat) (f : NodeMap) : NodeMap :=
  exchangeFold (exchangePairs vids) f

/-- A node state with extra gentxs appended to its directory (the shape of
every exchange import). -/
def extendDir (n : NodeSt) (extra : List Gentx) : NodeSt :=
  { n with gentxDir := n.gentxDir ++ extra }

/-- The slice of node `b`'s directory carrying `b`'s own validator id —
what `copy_gentx_from(node_b)` imports. -/
def ownSlice (f : NodeMap) (b : Nat) : List Gentx :=
  (f b).gentxDir.filter (fun g => g.valId = b)

/-- Everything node `x` receives during the exchange: each other node's own
slice, in iteration order. -/
def gatheredSlices (vids : List Nat) (f : NodeMap) (x : Nat) : List Gentx :=
  (vids.filter (fun b => b ≠ x)).flatMap (ownSlice f)

/-- One node after `collect_gentx()`: the local directory folded into the
genesis document. -/
def collectInto (n : NodeSt) : NodeSt :=
  { n with genesis := { n.genesis with gentxs := n.gentxDir } }

/-- Pointwise result of the successful collection loop. -/
def collectedMap (vids : List Nat) (f : NodeMap) : NodeMap :=
  fun x => if x ∈ vids then collectInto (f x) else f x

/-- The final collection loop (testnet.py lines 275-276): every node runs
`collect_gentx()`.  Each node's collection depends only on its own working
directory; the loop aborts at the first failing node and `prepare()` then
aborts wholesale, so the partial successor state is never observed, and
the successful result is the pointwise collection. -/
def phaseCollect (vids : List Nat) (f : NodeMap) :
    Except AtomError NodeMap :=
  match vids.find? (fun a => !((f a).gentxDir.all (fun g => g.signed))) with
  | some a => .error (.bootstrapFailure a)
  | none => .ok (collectedMap vids f)

/-- Result of a successful `prepare()`: the deduplicated validator id list
(the key order of `validator_nodes`), the lead id, the final node-state
map, the event trace in program order, and the flat allocated port list. -/
structure PrepResult where
  ids : List Nat
  lead : Nat
  node : NodeMap
  trace : List Event
  allocated : List Nat

instance : Inhabited PrepResult :=
  ⟨⟨[], 0, fun _ => nodeInit 0 "", [], []⟩⟩

/-- Stage 0 (testnet.py lines 154-169): node construction and `init` for
every validator. -/
def prepF0 (cfg : PrepCfg) : NodeMap :=
  fun x => nodeInit x cfg.chainId

/-- Stage 1 (lines 171-174): genesis parameter overrides, lead only. -/
def prepF1 (cfg : PrepCfg) (lead : Nat) : NodeMap :=
  updateAt (prepF0 cfg) lead (applyGenesisOverrides cfg)

/-- The funding loops' entries (lines 176-184): every validator, then every
account, each with `Coin(self.account_balance, self.denom)`. -/
def fundEntries (cfg : PrepCfg) (vids aids : List Nat) : List (String × Nat) :=
  vids.map (fun v => (addrOf v, cfg.accountBalance)) ++
    aids.map (fun a => (addrOf a, cfg.accountBalance))

/-- Stage 2 (lines 176-184): the two funding loops, every `add_account` on
the lead node. -/
def prepF2 (cfg : PrepCfg) (lead : Nat) (rest : List Nat) : NodeMap :=
  updateAt (prepF1 cfg lead) lead
    (fun n => (fundEntries cfg (lead :: rest) (dedupKeys cfg.accountIds)).foldl
      (fun n e => addAccountOp n e.1 e.2) n)

/-- Stage 3 (lines 186-190): every non-lead copies the lead genesis.  Each
iteration touches only its own node and reads the lead, which the loop
never modifies, so the loop is a fold of per-node point updates. -/
def prepF3 (cfg : PrepCfg) (lead : Nat) (rest : List Nat) : NodeMap :=
  foldUpdates
    (rest.map (fun a => (a, fun n => copyGenesisOp n (prepF2 cfg lead rest lead))))
    (prepF2 cfg lead rest)

/-- The row the i-th non-lead of the iteration order receives:
`all_ports.pop()` removes the LAST row of the reshaped list (line 211), so
with `m` non-leads it is row `m - 1 - i`. -/
def portRowFor (rows : List (List Nat)) (m i : Nat) : List Nat :=
  rows.getD (m - 1 - i) []

/-- Stage 4 (lines 201-222): per node in iteration order, the declared
config overrides; every non-lead then has its listening-address fields
rewritten to its popped row.  Again a fold of per-node point updates. -/
def prepF4 (cfg : PrepCfg) (lead : Nat) (rest : List Nat) (flat : List Nat) :
    NodeMap :=
  foldUpdates
    ((lead, applyNodeOverrides cfg) ::
      rest.enum.map (fun ie =>
        (ie.2, fun n =>
          applyPortRow (portRowFor (chunkRows flat rest.length) rest.length ie.1)
            (applyNodeOverrides cfg n))))
    (prepF3 cfg lead rest)

/-- Stage 5 (lines 252-268): the gentx step for every node. -/
def prepF5 (cfg : PrepCfg) (lead : Nat) (rest : List Nat) (flat : List Nat) :
    NodeMap :=
  foldUpdates
    ((lead :: rest).map (fun a => (a, gentxNodeOp cfg lead a)))
    (prepF4 cfg lead rest flat)

/-- Stage 6 (lines 270-273): the all-pairs exchange. -/
def prepF6 (cfg : PrepCfg) (lead : Nat) (rest : List Nat) (flat : List Nat) :
    NodeMap :=
  phaseExchange (lead :: rest) (prepF5 cfg lead rest flat)

/-- Trace segment of the init loop (lines 168-169). -/
def trInit (lead : Nat) (rest : List Nat) : List Event :=
  (lead :: rest).map Event.initEv

/-- Trace segment of the genesis-override loop (lines 171-174). -/
def trGenOverrides (cfg : PrepCfg) (lead : Nat) : List Event :=
  cfg.configGenesis.map (fun kv => Event.setGenesisParam lead kv.1)

/-- Trace segment of the two funding loops (lines 176-184). -/
def trFund (cfg : PrepCfg) (lead : Nat) (rest : List Nat) : List Event :=
  (fundEntries cfg (lead :: rest) (dedupKeys cfg.accountIds)).map
    (fun e => Event.addAccount lead e.1 e.2)

/-- Trace segment of the genesis-copy loop (lines 186-190). -/
def trCopyGenesis (lead : Nat) (rest : List Nat) : List Event :=
  rest.map (fun a => Event.copyGenesisFrom a lead)

/-- Trace segment of the config/port loop (lines 201-222). -/
def trConfigPorts (cfg : PrepCfg) (lead : Nat) (rest : List Nat)
    (flat : List Nat) : List Event :=
  overrideEventsFor cfg lead ++
    rest.enum.flatMap (fun ie =>
      overrideEventsFor cfg ie.2 ++
        portEventsFor ie.2
          (portRowFor (chunkRows flat rest.length) rest.length ie.1))

/-- Trace segment of the gentx loop (lines 252-268). -/
def trGentx (cfg : PrepCfg) (lead : Nat) (rest : List Nat)
    (flat : List Nat) : List Event :=
  (lead :: rest).flatMap
    (fun a => gentxEventsFor cfg lead a (prepF4 cfg lead rest flat a))

/-- Trace segment of the all-pairs exchange (lines 270-273). -/
def trExchange (lead : Nat) (rest : List Nat) : List Event :=
  (exchangePairs (lead :: rest)).map (fun p => Event.copyGentxFrom p.1 p.2)

/-- Trace segment of the collection loop (lines 275-276). -/
def trCollect (lead : Nat) (rest : List Nat) : List Event :=
  (lead :: rest).map Event.collectGentx

/-- Everything `prepare` does before the collection loop. -/
def trBeforeCollect (cfg : PrepCfg) (lead : Nat) (rest : List Nat)
    (flat : List Nat) : List Event :=
  trInit lead rest ++ trGenOverrides cfg lead ++ trFund cfg lead rest ++
    trCopyGenesis lead rest ++ trConfigPorts cfg lead rest flat ++
    trGentx cfg lead rest flat ++ trExchange lead rest

/-- The event trace of `prepare`, segments in program order. -/
def prepTrace (cfg : PrepCfg) (lead : Nat) (rest : List Nat) (flat : List Nat) :
    List Event :=
  trBeforeCollect cfg lead rest flat ++ trCollect lead rest

/-- Translation of `Testnet.prepare` (testnet.py lines 151-276).  Phases in
program order: node construction and `init` for every validator; genesis
parameter overrides on the lead; funding of every validator and every
account on the lead at the account balance; genesis copy lead → every
non-lead; port allocation (`numRoles * (N - 1)` fresh ports, reshaped into
rows of `numRoles`); per node, declared config overrides and — for
non-leads — the port rewrite, where `all_ports.pop()` removes the LAST row,
so the i-th non-lead of the iteration order receives row `m - 1 - i`; the
gentx step for every node; the all-pairs gentx exchange; and every node's
`collect_gentx()`.

Loops in which every iteration touches only the iteration's own node (and
reads at most the lead, which such loops never modify) are rendered as
`foldUpdates` of per-node operations; the exchange loop, whose iterations
read other nodes' just-modified state, is kept as a fold over the visited
pairs. -/
def prepareWith (cfg : PrepCfg) (supply : List Nat) (lead : Nat)
    (rest : List Nat) : Except AtomError PrepResult :=
  match get_free_ports supply (numRoles * rest.length) with
  | .error e => .error e
  | .ok flat =>
    match phaseCollect (lead :: rest) (prepF6 cfg lead rest flat) with
    | .error e => .error e
    | .ok f7 =>
      .ok { ids := lead :: rest
            lead := lead
            node := f7
            trace := prepTrace cfg lead rest flat
            allocated := flat }

/-- Entry point: `prepare` on an empty validator list corresponds to the
Python constructor's `self._validator_ids[0]` raising `IndexError` before
`prepare` could ever run. -/
def prepare (cfg : PrepCfg) (supply : List Nat) :
    Except AtomError PrepResult :=
  match dedupKeys cfg.validatorIds with
  | [] => .error (.configurationError "IndexError: list index out of range")
  | lead :: rest => prepareWith cfg supply lead rest

/-- Projection of a `prepare` result, defaulting on failure. -/
def prepGetD (r : Except AtomError PrepResult) : PrepResult :=
  match r with
  | .ok p => p
  | .error _ => default

/-- Lifecycle view of a `Testnet` object for `teardown`: in Python the
`validator_nodes` attribute exists only once `prepare()` has reached node
construction (testnet.py line 154); before that it is absent. -/
structure TestnetLifecycle where
  validatorNodes : Option (List (Nat × NodeSt))

/-- Translation of `Testnet.teardown` (testnet.py lines 286-288):
`for node in self.validator_nodes.values(): node.close()`.  Reading the
attribute on a never-prepared Testnet raises `AttributeError`. -/
def teardown (t : TestnetLifecycle) : Except AtomError TestnetLifecycle :=
  match t.validatorNodes with
  | none => .error (.attributeError
      "Testnet object has no attribute validator_nodes")
  | some ns => .ok ⟨some (ns.map (fun p => (p.1, closeNode p.2)))⟩

/-- Decoded `TxResponse` fields the orchestrator's callers consume. -/
structure TxResponse where
  code : Nat
  rawLog : String
  height : Nat
  txhash : String
deriving DecidableEq, Repr

/-- The three broadcast modes of the chain's submission interface
(testnet.py lines 339-347): BLOCK waits for the transaction to be committed
in a block, SYNC waits for mempool acceptance only, ASYNC returns
immediately. -/
inductive BroadcastMode where
  | block
  | sync
  | async
deriving DecidableEq, Repr

/-- Externally visible steps of `broadcast_transaction`, in program order:
the account-info query on the target node, the delegated signing with an
explicit (accountNumber, sequence) pair, and the submission. -/
inductive BcastEvent where
  | queryAccountInfo (target : Nat) (address : String)
  | signTx (accountNumber : Nat) (sequence : Nat)
  | broadcastTx (target : Nat) (mode : BroadcastMode)
deriving DecidableEq, Repr

/-- Oracle for the running chain: what the target node's account-info
interface answers for the sender, and the response the chain returns for
the submitted transaction. -/
structure ChainEnv where
  accountNumber : Nat
  sequence : Nat
  response : TxResponse

/-- The sender identity as `broadcast_transaction` sees it. -/
structure SdkAccount where
  name : String
  mnemonic : Option String
  address : String

/-- Target-node resolution of `broadcast_transaction` and
`get_grpc_channel` (testnet.py lines 145-147 and 299-300): when no
validator id is given, the lead validator is used. -/
def resolveTarget (lead : Nat) (validatorId : Option Nat) : Nat :=
  match validatorId with
  | none => lead
  | some v => v

/-- Translation of `Testnet.broadcast_transaction` (testnet.py lines
290-356).  The target node defaults to the lead validator (lines 299-300).
If the sender has no mnemonic the function raises before any channel is
opened or query made (lines 310-311).  Otherwise it queries the target
node's account-info interface for `(account_number, sequence)` (lines
322-326), signs with exactly that pair (lines 328-335), submits once with
`BROADCAST_MODE_BLOCK` (lines 348-352) and returns the chain's
`tx_response` verbatim, whatever its code. -/
def broadcast_transaction (lead : Nat) (account : SdkAccount)
    (validatorId : Option Nat) (env : ChainEnv) :
    Except AtomError TxResponse × List BcastEvent :=
  let target := resolveTarget lead validatorId
  match account.mnemonic with
  | none =>
    (.error (.configurationError
        ("Account(" ++ account.name ++ ") do not have mnemonic")), [])
  | some _ =>
    (.ok env.response,
     [BcastEvent.queryAccountInfo target account.address,
      BcastEvent.signTx env.accountNumber env.sequence,
      BcastEvent.broadcastTx target BroadcastMode.block])

/-! Concrete instances used to exercise the theorems. -/

/-- A 2-validator, 1-account Testnet configuration. -/
def cfgEx : PrepCfg :=
  { chainId := "test-1"
    validatorIds := [0, 1]
    accountIds := [0]
    denom := "stake"
    configGenesis := [("max_validators", .int 10)]
    configNode := [("config", [("log_level", .str "info")])]
    accountBalance := 1000
    validatorBalance := 100 }

/-- Ports the OS yields for `cfgEx` (one non-lead node, eight roles). -/
def supplyEx : List Nat :=
  [9001, 9002, 9003, 9004, 9005, 9006, 9007, 9008]

/-- A 3-validator configuration (two non-lead nodes). -/
def cfgEx3 : PrepCfg :=
  { chainId := "test-3"
    validatorIds := [4, 7, 2]
    accountIds := [1]
    denom := "stake"
    configGenesis := []
    configNode := []
    accountBalance := 500
    validatorBalance := 50 }

/-- Ports the OS yields for `cfgEx3` (two non-lead nodes, eight roles
each). -/
def supplyEx3 : List Nat :=
  [9001, 9002, 9003, 9004, 9005, 9006, 9007, 9008,
   9011, 9012, 9013, 9014, 9015, 9016, 9017, 9018]

/-- A sender with no usable signing material. -/
def acctNoMn : SdkAccount := ⟨"acc0", none, addrOf 0⟩

/-- A sender with a mnemonic. -/
def acctMn : SdkAccount := ⟨"acc0", some "word list", addrOf 0⟩

/-- A chain oracle whose response carries a nonzero code. -/
def envEx : ChainEnv := ⟨7, 3, ⟨5, "out of gas", 12, "CAFE"⟩⟩

/-! Event classifiers used by the temporal statements. -/

def isCopyGentxEv : Event → Bool
  | .copyGentxFrom _ _ => true
  | _ => false

def isCollectEv : Event → Bool
  | .collectGentx _ => true
  | _ => false

def isUpdatePortEv : Event → Bool
  | .updatePortField _ _ _ _ => true
  | _ => false

def isMemoUpdFor (a : Nat) : Event → Bool
  | .updateGentxMemo n _ => n == a
  | _ => false

def isSignFor (a : Nat) : Event → Bool
  | .signGentx n _ => n == a
  | _ => false

def isSetGenesisEv : Event → Bool
  | .setGenesisParam _ _ => true
  | _ => false

def isAddAccountEv : Event → Bool
  | .addAccount _ _ _ => true
  | _ => false

/-- The node whose working directory an event touches. -/
def evNode : Event → Nat
  | .initEv n => n
  | .setGenesisParam n _ => n
  | .addAccount n _ _ => n
  | .copyGenesisFrom n _ => n
  | .setConfig n _ _ => n
  | .updatePortField n _ _ _ => n
  | .addKey n => n
  | .addValidator n _ => n
  | .updateGentxMemo n _ => n
  | .signGentx n _ => n
  | .copyGentxFrom n _ => n
  | .collectGentx n => n

/-! Basic lemmas about the building blocks. -/

theorem mem_dedupKeysAux {l seen : List Nat} {x : Nat} :
    x ∈ dedupKeysAux l seen ↔ x ∈ l ∧ x ∉ seen := by
  induction l generalizing seen with
  | nil => simp [dedupKeysAux]
  | cons a as ih =>
    simp only [dedupKeysAux]
    by_cases h : a ∈ seen
    · rw [if_pos (List.elem_eq_true_of_mem h), ih]
      constructor
      · rintro ⟨hx, hs⟩
        exact ⟨List.mem_cons_of_mem _ hx, hs⟩
      · rintro ⟨hx, hs⟩
        rcases List.mem_cons.mp hx with hx | hx
        · exact absurd (hx ▸ h) hs
        · exact ⟨hx, hs⟩
    · rw [if_neg (fun hc => h (List.mem_of_elem_eq_true hc))]
      constructor
      · intro hx
        rcases List.mem_cons.mp hx with hx | hx
        · exact ⟨hx ▸ List.mem_cons_self a as, hx ▸ h⟩
        · rcases ih.mp hx with ⟨h1, h2⟩
          refine ⟨List.mem_cons_of_mem _ h1, fun hc => h2 ?_⟩
          exact List.mem_cons_of_mem _ hc
      · rintro ⟨hx, hs⟩
        rcases List.mem_cons.mp hx with hx | hx
        · exact hx ▸ List.mem_cons_self _ _
        · by_cases hxa : x = a
          · exact hxa ▸ List.mem_cons_self _ _
          · refine List.mem_cons_of_mem _ (ih.mpr ⟨hx, ?_⟩)
            intro hc
            rcases List.mem_cons.mp hc with hc | hc
            · exact hxa hc
            · exact hs hc

theorem nodup_dedupKeysAux (l seen : List Nat) :
    (dedupKeysAux l seen).Nodup := by
  induction l generalizing seen with
  | nil => simp [dedupKeysAux]
  | cons a as ih =>
    simp only [dedupKeysAux]
    by_cases h : a ∈ seen
    · rw [if_pos (List.elem_eq_true_of_mem h)]
      exact ih seen
    · rw [if_neg (fun hc => h (List.mem_of_elem_eq_true hc))]
      refine List.nodup_cons.mpr ⟨?_, ih (a :: seen)⟩
      intro hmem
      exact (mem_dedupKeysAux.mp hmem).2 (List.mem_cons_self a seen)

theorem nodup_dedupKeys (l : List Nat) : (dedupKeys l).Nodup :=
  nodup_dedupKeysAux l []

theorem mem_dedupKeys {l : List Nat} {x : Nat} :
    x ∈ dedupKeys l ↔ x ∈ l := by
  rw [dedupKeys, mem_dedupKeysAux]
  simp

theorem dedupKeys_cons (a : Nat) (as : List Nat) :
    dedupKeys (a :: as) = a :: dedupKeysAux as [a] := by
  simp [dedupKeys, dedupKeysAux]

theorem updateAt_same (f : NodeMap) (a : Nat) (g : NodeSt → NodeSt) :
    updateAt f a g a = g (f a) := by
  simp [updateAt]

theorem updateAt_other (f : NodeMap) (a x : Nat) (g : NodeSt → NodeSt)
    (h : x ≠ a) : updateAt f a g x = f x := by
  simp [updateAt, h]

theorem foldUpdates_not_mem (l : List (Nat × (NodeSt → NodeSt)))
    (f : NodeMap) (x : Nat) (h : x ∉ l.map Prod.fst) :
    foldUpdates l f x = f x := by
  induction l generalizing f with
  | nil => rfl
  | cons e es ih =>
    simp only [List.map_cons, List.mem_cons] at h
    push_neg at h
    simp only [foldUpdates, List.foldl_cons]
    have := ih (updateAt f e.1 e.2) h.2
    simp only [foldUpdates] at this
    rw [this, updateAt_other _ _ _ _ h.1]

theorem foldUpdates_mem (l : List (Nat × (NodeSt → NodeSt)))
    (f : NodeMap) (a : Nat) (g : NodeSt → NodeSt)
    (hnd : (l.map Prod.fst).Nodup) (hmem : (a, g) ∈ l) :
    foldUpdates l f a = g (f a) := by
  induction l generalizing f with
  | nil => cases hmem
  | cons e es ih =>
    simp only [List.map_cons, List.nodup_cons] at hnd
    rcases List.mem_cons.mp hmem with h | h
    · subst h
      simp only [foldUpdates, List.foldl_cons]
      have hnot : a ∉ es.map Prod.fst := by
        simpa using hnd.1
      have := foldUpdates_not_mem es (updateAt f a g) a hnot
      simp only [foldUpdates] at this ⊢
      rw [this, updateAt_same]
    · have hne : a ≠ e.1 := by
        intro hc
        exact hnd.1 (hc ▸ (List.mem_map.mpr ⟨(a, g), h, rfl⟩))
      simp only [foldUpdates, List.foldl_cons]
      have := ih (updateAt f e.1 e.2) hnd.2 h
      simp only [foldUpdates] at this
      rw [this, updateAt_other _ _ _ _ hne]

/-- Index separation: if no event of the second segment satisfies `P` and
no event of the first satisfies `Q`, every `P`-position precedes every
`Q`-position in the concatenation. -/
theorem sep_indices (l₁ l₂ : List Event) (P Q : Event → Bool)
    (hP : ∀ e ∈ l₂, P e = false) (hQ : ∀ e ∈ l₁, Q e = false) :
    ∀ i j (hi : i < (l₁ ++ l₂).length) (hj : j < (l₁ ++ l₂).length),
      P ((l₁ ++ l₂).get ⟨i, hi⟩) = true →
      Q ((l₁ ++ l₂).get ⟨j, hj⟩) = true → i < j := by
  intro i j hi hj hPi hQj
  have hil : i < l₁.length := by
    by_contra hc
    push_neg at hc
    have hmem : (l₁ ++ l₂).get ⟨i, hi⟩ ∈ l₂ := by
      rw [List.get_eq_getElem, List.getElem_append_right hc]
      exact List.getElem_mem _
    rw [hP _ hmem] at hPi
    cases hPi
  have hjl : l₁.length ≤ j := by
    by_contra hc
    push_neg at hc
    have hmem : (l₁ ++ l₂).get ⟨j, hj⟩ ∈ l₁ := by
      rw [List.get_eq_getElem, List.getElem_append_left hc]
      exact List.getElem_mem _
    rw [hQ _ hmem] at hQj
    cases hQj
  omega

/-! Preservation lemmas: which fields each phase leaves untouched. -/

theorem foldl_genesis {β : Type} (op : NodeSt → β → NodeSt)
    (h : ∀ n b, (op n b).genesis = n.genesis) :
    ∀ (l : List β) (n : NodeSt), (l.foldl op n).genesis = n.genesis := by
  intro l
  induction l with
  | nil => intro n; rfl
  | cons b bs ih => intro n; rw [List.foldl_cons, ih, h]

theorem foldl_gentxDir {β : Type} (op : NodeSt → β → NodeSt)
    (h : ∀ n b, (op n b).gentxDir = n.gentxDir) :
    ∀ (l : List β) (n : NodeSt), (l.foldl op n).gentxDir = n.gentxDir := by
  intro l
  induction l with
  | nil => intro n; rfl
  | cons b bs ih => intro n; rw [List.foldl_cons, ih, h]

theorem foldl_config {β : Type} (op : NodeSt → β → NodeSt)
    (h : ∀ n b, (op n b).config = n.config) :
    ∀ (l : List β) (n : NodeSt), (l.foldl op n).config = n.config := by
  intro l
  induction l with
  | nil => intro n; rfl
  | cons b bs ih => intro n; rw [List.foldl_cons, ih, h]

theorem applyNodeOverrides_genesis (cfg : PrepCfg) (n : NodeSt) :
    (applyNodeOverrides cfg n).genesis = n.genesis := by
  unfold applyNodeOverrides
  apply foldl_genesis
  intro n fc
  apply foldl_genesis
  intro n kv
  rfl

theorem applyNodeOverrides_gentxDir (cfg : PrepCfg) (n : NodeSt) :
    (applyNodeOverrides cfg n).gentxDir = n.gentxDir := by
  unfold applyNodeOverrides
  apply foldl_gentxDir
  intro n fc
  apply foldl_gentxDir
  intro n kv
  rfl

theorem applyPortRow_genesis (row : List Nat) (n : NodeSt) :
    (applyPortRow row n).genesis = n.genesis := by
  unfold applyPortRow
  apply foldl_genesis
  intro n jp
  rfl

theorem applyPortRow_gentxDir (row : List Nat) (n : NodeSt) :
    (applyPortRow row n).gentxDir = n.gentxDir := by
  unfold applyPortRow
  apply foldl_gentxDir
  intro n jp
  rfl

theorem applyGenesisOverrides_config (cfg : PrepCfg) (n : NodeSt) :
    (applyGenesisOverrides cfg n).config = n.config := by
  unfold applyGenesisOverrides
  apply foldl_config
  intro n kv
  rfl

theorem applyGenesisOverrides_gentxDir (cfg : PrepCfg) (n : NodeSt) :
    (applyGenesisOverrides cfg n).gentxDir = n.gentxDir := by
  unfold applyGenesisOverrides
  apply foldl_gentxDir
  intro n kv
  rfl

theorem gentxNodeOp_genesis (cfg : PrepCfg) (lead a : Nat) (n : NodeSt) :
    (gentxNodeOp cfg lead a n).genesis = n.genesis := by
  unfold gentxNodeOp
  by_cases h : a = lead <;>
    simp [h, signGentxOp, rewriteGentxMemoOp, addValidatorOp, addKeyOp]

theorem gentxNodeOp_config (cfg : PrepCfg) (lead a : Nat) (n : NodeSt) :
    (gentxNodeOp cfg lead a n).config = n.config := by
  unfold gentxNodeOp
  by_cases h : a = lead <;>
    simp [h, signGentxOp, rewriteGentxMemoOp, addValidatorOp, addKeyOp]

/-! The all-pairs exchange: characterization of the final directories. -/

theorem importStep_genesis (f : NodeMap) (a b x : Nat) :
    (importStep f a b x).genesis = (f x).genesis := by
  unfold importStep updateAt
  by_cases h : x = a <;> simp [h, copyGentxOp]

theorem importStep_config (f : NodeMap) (a b x : Nat) :
    (importStep f a b x).config = (f x).config := by
  unfold importStep updateAt
  by_cases h : x = a <;> simp [h, copyGentxOp]

theorem exchangeFold_genesis (P : List (Nat × Nat)) :
    ∀ (f : NodeMap) (x : Nat),
      (exchangeFold P f x).genesis = (f x).genesis := by
  induction P with
  | nil => intro f x; rfl
  | cons p ps ih =>
    intro f x
    unfold exchangeFold at ih ⊢
    rw [List.foldl_cons, ih, importStep_genesis]

theorem exchangeFold_config (P : List (Nat × Nat)) :
    ∀ (f : NodeMap) (x : Nat),
      (exchangeFold P f x).config = (f x).config := by
  induction P with
  | nil => intro f x; rfl
  | cons p ps ih =>
    intro f x
    unfold exchangeFold at ih ⊢
    rw [List.foldl_cons, ih, importStep_config]

/-- Gentxs imported during any exchange add only the source's own validator
id, so the slice of a node's directory carrying a given id `x` is invariant
under every exchange whose pairs have distinct components. -/
theorem exchangeFold_filter (P : List (Nat × Nat)) :
    ∀ (f : NodeMap) (x : Nat), (∀ p ∈ P, p.1 ≠ p.2) →
      (exchangeFold P f x).gentxDir.filter (fun g => g.valId = x) =
        (f x).gentxDir.filter (fun g => g.valId = x) := by
  induction P with
  | nil => intro f x _; rfl
  | cons p ps ih =>
    intro f x hP
    unfold exchangeFold at ih ⊢
    rw [List.foldl_cons]
    have hps : ∀ q ∈ ps, q.1 ≠ q.2 := fun q hq => hP q (List.mem_cons_of_mem _ hq)
    have := ih (importStep f p.1 p.2) x hps
    rw [this]
    unfold importStep updateAt
    by_cases h : x = p.1
    · subst h
      have hnil : ((f p.2).gentxDir.filter (fun g => g.valId = p.2)).filter
          (fun g => g.valId = p.1) = [] := by
        apply List.filter_eq_nil_iff.mpr
        intro g hg
        have h2 := List.of_mem_filter hg
        have hne := hP p (List.mem_cons_self _ _)
        simp only [decide_eq_true_eq] at h2 ⊢
        intro hc
        exact hne (by rw [← hc, ← h2])
      simp [copyGentxOp, List.filter_append, hnil]
    · simp [h]

theorem flatMap_congr_mem {α β : Type} (l : List α) (f g : α → List β)
    (h : ∀ a ∈ l, f a = g a) : l.flatMap f = l.flatMap g := by
  induction l with
  | nil => rfl
  | cons a as ih =>
    rw [List.flatMap_cons, List.flatMap_cons, h a (List.mem_cons_self _ _),
      ih (fun b hb => h b (List.mem_cons_of_mem _ hb))]

theorem extendDir_extendDir (n : NodeSt) (l1 l2 : List Gentx) :
    extendDir (extendDir n l1) l2 = extendDir n (l1 ++ l2) := by
  simp [extendDir, List.append_assoc]

theorem importStep_same (f : NodeMap) (a b : Nat) :
    importStep f a b a = extendDir (f a) (ownSlice f b) := by
  simp [importStep, updateAt, copyGentxOp, extendDir, ownSlice]

theorem importStep_other (f : NodeMap) (a b x : Nat) (h : x ≠ a) :
    importStep f a b x = f x := by
  simp [importStep, updateAt, h]

theorem exchangeFold_ownSlice (P : List (Nat × Nat)) (f : NodeMap) (x : Nat)
    (hP : ∀ p ∈ P, p.1 ≠ p.2) :
    ownSlice (exchangeFold P f) x = ownSlice f x :=
  exchangeFold_filter P f x hP

/-- One outer iteration of the exchange double loop: with `a` as the fixed
destination and `bs` the inner sources (none of them `a`), only node `a`
changes, receiving the concatenation of every source's own slice. -/
theorem exchangeFold_block (a : Nat) (bs : List Nat) :
    ∀ (f : NodeMap), a ∉ bs → ∀ x,
      exchangeFold (bs.map (fun b => (a, b))) f x =
        (if x = a then extendDir (f a) (bs.flatMap (ownSlice f)) else f x) := by
  induction bs with
  | nil =>
    intro f _ x
    by_cases h : x = a <;> simp [exchangeFold, h, extendDir]
  | cons b bs ih =>
    intro f hnot x
    have hnot2 : a ∉ bs := fun hc => hnot (List.mem_cons_of_mem _ hc)
    simp only [List.map_cons]
    have step : exchangeFold ((a, b) :: bs.map (fun c => (a, c))) f x =
        exchangeFold (bs.map (fun c => (a, c))) (importStep f a b) x := by
      unfold exchangeFold
      rw [List.foldl_cons]
    rw [step, ih (importStep f a b) hnot2 x]
    have hfb : ∀ c ∈ bs, importStep f a b c = f c := by
      intro c hc
      exact importStep_other f a b c (fun h2 => hnot2 (h2 ▸ hc))
    by_cases h : x = a
    · rw [if_pos h, if_pos h]
      rw [importStep_same]
      have hcongr : bs.flatMap (ownSlice (importStep f a b)) =
          bs.flatMap (ownSlice f) := by
        apply flatMap_congr_mem
        intro c hc
        unfold ownSlice
        rw [hfb c hc]
      rw [hcongr, extendDir_extendDir, List.flatMap_cons]
    · rw [if_neg h, if_neg h]
      exact importStep_other f a b x h

/-- The whole exchange double loop: every destination in `as` ends with its
original directory extended by each inner source's own slice, as read from
the pre-exchange map `f`. -/
theorem exchangeFold_nested (vids : List Nat) (as : List Nat) :
    ∀ (f : NodeMap), as.Nodup → ∀ x,
      exchangeFold (as.flatMap
          (fun a => (vids.filter (fun b => b ≠ a)).map (fun b => (a, b)))) f x =
        (if x ∈ as then extendDir (f x) (gatheredSlices vids f x) else f x) := by
  induction as with
  | nil =>
    intro f _ x
    simp [exchangeFold]
  | cons a as ih =>
    intro f hnd x
    have hnd2 : as.Nodup := (List.nodup_cons.mp hnd).2
    have hanotin : a ∉ as := (List.nodup_cons.mp hnd).1
    rw [List.flatMap_cons]
    have happ : exchangeFold
        ((vids.filter (fun b => b ≠ a)).map (fun b => (a, b)) ++
          as.flatMap (fun c => (vids.filter (fun b => b ≠ c)).map (fun b => (c, b)))) f =
        exchangeFold
          (as.flatMap (fun c => (vids.filter (fun b => b ≠ c)).map (fun b => (c, b))))
          (exchangeFold ((vids.filter (fun b => b ≠ a)).map (fun b => (a, b))) f) := by
      unfold exchangeFold
      rw [List.foldl_append]
    rw [happ]
    have hnotain : a ∉ vids.filter (fun b => b ≠ a) := by
      intro hc
      have := List.of_mem_filter hc
      simp at this
    set f1 := exchangeFold ((vids.filter (fun b => b ≠ a)).map (fun b => (a, b))) f
      with hf1
    have hablock : ∀ y, f1 y =
        (if y = a then extendDir (f a) (gatheredSlices vids f a) else f y) := by
      intro y
      rw [hf1, exchangeFold_block a _ f hnotain y]
      unfold gatheredSlices
      rfl
    have hpairs : ∀ p ∈ (vids.filter (fun b => b ≠ a)).map (fun b => (a, b)),
        p.1 ≠ p.2 := by
      intro p hp
      rcases List.mem_map.mp hp with ⟨b, hb, rfl⟩
      have := List.of_mem_filter hb
      simp only [decide_eq_true_eq] at this
      exact fun hc => this hc.symm
    have hslice : ∀ b, ownSlice f1 b = ownSlice f b := by
      intro b
      rw [hf1]
      exact exchangeFold_ownSlice _ f b hpairs
    rw [ih f1 hnd2 x]
    by_cases hx : x ∈ as
    · have hxa : x ≠ a := fun hc => hanotin (hc ▸ hx)
      rw [if_pos hx, if_pos (List.mem_cons_of_mem _ hx)]
      have hfx : f1 x = f x := by
        rw [hablock x, if_neg hxa]
      have hcongr : gatheredSlices vids f1 x = gatheredSlices vids f x := by
        unfold gatheredSlices
        apply flatMap_congr_mem
        intro c hc
        exact hslice c
      rw [hfx, hcongr]
    · by_cases hxa : x = a
      · rw [if_neg hx, if_pos (by rw [hxa]; exact List.mem_cons_self _ _)]
        rw [hablock x, if_pos hxa, hxa]
      · have hnotc : x ∉ a :: as := by
          intro hc
          rcases List.mem_cons.mp hc with hc | hc
          · exact hxa hc
          · exact hx hc
        rw [if_neg hx, if_neg hnotc]
        rw [hablock x, if_neg hxa]

/-- Final directories after `phaseExchange`. -/
theorem phaseExchange_dir (vids : List Nat) (f : NodeMap)
    (hnd : vids.Nodup) (x : Nat) :
    phaseExchange vids f x =
      (if x ∈ vids then extendDir (f x) (gatheredSlices vids f x) else f x) := by
  unfold phaseExchange exchangePairs
  exact exchangeFold_nested vids vids f hnd x

/-! Stage lemmas for `prepare`. -/

theorem keys_of_pairs (l : List Nat) (gf : Nat → NodeSt → NodeSt) :
    (l.map (fun a => (a, gf a))).map Prod.fst = l := by
  rw [List.map_map]
  exact List.map_id l

theorem foldUpdates_genesis (l : List (Nat × (NodeSt → NodeSt)))
    (h : ∀ e ∈ l, ∀ n, (e.2 n).genesis = n.genesis) :
    ∀ (f : NodeMap) (x : Nat), (foldUpdates l f x).genesis = (f x).genesis := by
  induction l with
  | nil => intro f x; rfl
  | cons e es ih =>
    intro f x
    unfold foldUpdates at ih ⊢
    rw [List.foldl_cons, ih (fun q hq => h q (List.mem_cons_of_mem _ hq))]
    unfold updateAt
    by_cases hx : x = e.1
    · rw [if_pos hx, h e (List.mem_cons_self _ _)]
    · rw [if_neg hx]

theorem foldUpdates_gentxDir (l : List (Nat × (NodeSt → NodeSt)))
    (h : ∀ e ∈ l, ∀ n, (e.2 n).gentxDir = n.gentxDir) :
    ∀ (f : NodeMap) (x : Nat),
      (foldUpdates l f x).gentxDir = (f x).gentxDir := by
  induction l with
  | nil => intro f x; rfl
  | cons e es ih =>
    intro f x
    unfold foldUpdates at ih ⊢
    rw [List.foldl_cons, ih (fun q hq => h q (List.mem_cons_of_mem _ hq))]
    unfold updateAt
    by_cases hx : x = e.1
    · rw [if_pos hx, h e (List.mem_cons_self _ _)]
    · rw [if_neg hx]

theorem foldUpdates_config (l : List (Nat × (NodeSt → NodeSt)))
    (h : ∀ e ∈ l, ∀ n, (e.2 n).config = n.config) :
    ∀ (f : NodeMap) (x : Nat), (foldUpdates l f x).config = (f x).config := by
  induction l with
  | nil => intro f x; rfl
  | cons e es ih =>
    intro f x
    unfold foldUpdates at ih ⊢
    rw [List.foldl_cons, ih (fun q hq => h q (List.mem_cons_of_mem _ hq))]
    unfold updateAt
    by_cases hx : x = e.1
    · rw [if_pos hx, h e (List.mem_cons_self _ _)]
    · rw [if_neg hx]

theorem prepF1_other (cfg : PrepCfg) (lead x : Nat) (h : x ≠ lead) :
    prepF1 cfg lead x = nodeInit x cfg.chainId := by
  unfold prepF1
  rw [updateAt_other _ _ _ _ h]
  rfl

theorem prepF2_other (cfg : PrepCfg) (lead : Nat) (rest : List Nat) (x : Nat)
    (h : x ≠ lead) : prepF2 cfg lead rest x = nodeInit x cfg.chainId := by
  unfold prepF2
  rw [updateAt_other _ _ _ _ h]
  exact prepF1_other cfg lead x h

theorem foldl_addAccount_genesis (l : List (String × Nat)) :
    ∀ n : NodeSt,
      (l.foldl (fun n e => addAccountOp n e.1 e.2) n).genesis =
        { n.genesis with balances := n.genesis.balances ++ l } := by
  induction l with
  | nil => intro n; simp
  | cons e es ih =>
    intro n
    rw [List.foldl_cons, ih]
    simp [addAccountOp]

theorem prepF2_lead_genesis (cfg : PrepCfg) (lead : Nat) (rest : List Nat) :
    (prepF2 cfg lead rest lead).genesis =
      { (prepF1 cfg lead lead).genesis with
        balances := (prepF1 cfg lead lead).genesis.balances ++
          fundEntries cfg (lead :: rest) (dedupKeys cfg.accountIds) } := by
  unfold prepF2
  rw [updateAt_same, foldl_addAccount_genesis]

theorem applyGenesisOverrides_balances (cfg : PrepCfg) (n : NodeSt) :
    (applyGenesisOverrides cfg n).genesis.balances = n.genesis.balances := by
  unfold applyGenesisOverrides
  induction cfg.configGenesis generalizing n with
  | nil => rfl
  | cons kv kvs ih =>
    rw [List.foldl_cons, ih]
    rfl

theorem prepF2_lead_balances (cfg : PrepCfg) (lead : Nat) (rest : List Nat) :
    (prepF2 cfg lead rest lead).genesis.balances =
      fundEntries cfg (lead :: rest) (dedupKeys cfg.accountIds) := by
  rw [prepF2_lead_genesis]
  show (prepF1 cfg lead lead).genesis.balances ++ _ = _
  unfold prepF1
  rw [updateAt_same, applyGenesisOverrides_balances]
  rfl

theorem prepF2_config (cfg : PrepCfg) (lead : Nat) (rest : List Nat) (x : Nat) :
    (prepF2 cfg lead rest x).config = defaultConfig := by
  by_cases h : x = lead
  · subst h
    unfold prepF2
    rw [updateAt_same]
    rw [@foldl_config (String × Nat) (fun n e => addAccountOp n e.1 e.2) (fun n e => rfl)]
    unfold prepF1
    rw [updateAt_same, applyGenesisOverrides_config]
    rfl
  · rw [prepF2_other cfg lead rest x h]
    rfl

theorem prepF2_gentxDir (cfg : PrepCfg) (lead : Nat) (rest : List Nat)
    (x : Nat) : (prepF2 cfg lead rest x).gentxDir = [] := by
  by_cases h : x = lead
  · subst h
    unfold prepF2
    rw [updateAt_same]
    rw [@foldl_gentxDir (String × Nat) (fun n e => addAccountOp n e.1 e.2) (fun n e => rfl)]
    unfold prepF1
    rw [updateAt_same, applyGenesisOverrides_gentxDir]
    rfl
  · rw [prepF2_other cfg lead rest x h]
    rfl

theorem prepF3_not_mem (cfg : PrepCfg) (lead : Nat) (rest : List Nat) (x : Nat)
    (h : x ∉ rest) : prepF3 cfg lead rest x = prepF2 cfg lead rest x := by
  unfold prepF3
  apply foldUpdates_not_mem
  rw [keys_of_pairs]
  exact h

theorem prepF3_mem (cfg : PrepCfg) (lead : Nat) (rest : List Nat) (x : Nat)
    (hnd : rest.Nodup) (hx : x ∈ rest) :
    prepF3 cfg lead rest x =
      copyGenesisOp (prepF2 cfg lead rest x) (prepF2 cfg lead rest lead) := by
  unfold prepF3
  exact foldUpdates_mem
    (rest.map (fun a => (a, fun n => copyGenesisOp n (prepF2 cfg lead rest lead))))
    (prepF2 cfg lead rest) x
    (fun n => copyGenesisOp n (prepF2 cfg lead rest lead))
    (by rw [keys_of_pairs]; exact hnd)
    (List.mem_map.mpr ⟨x, hx, rfl⟩)

theorem prepF3_genesis (cfg : PrepCfg) (lead : Nat) (rest : List Nat)
    (x : Nat) (hnd : rest.Nodup) (hx : x ∈ lead :: rest) :
    (prepF3 cfg lead rest x).genesis = (prepF2 cfg lead rest lead).genesis := by
  by_cases hr : x ∈ rest
  · rw [prepF3_mem cfg lead rest x hnd hr]
    rfl
  · rw [prepF3_not_mem cfg lead rest x hr]
    rcases List.mem_cons.mp hx with h | h
    · rw [h]
    · exact absurd h hr

theorem prepF3_config (cfg : PrepCfg) (lead : Nat) (rest : List Nat)
    (x : Nat) (hnd : rest.Nodup) :
    (prepF3 cfg lead rest x).config = defaultConfig := by
  by_cases hr : x ∈ rest
  · rw [prepF3_mem cfg lead rest x hnd hr]
    show (prepF2 cfg lead rest x).config = _
    exact prepF2_config cfg lead rest x
  · rw [prepF3_not_mem cfg lead rest x hr]
    exact prepF2_config cfg lead rest x

theorem prepF3_gentxDir (cfg : PrepCfg) (lead : Nat) (rest : List Nat)
    (x : Nat) (hnd : rest.Nodup) :
    (prepF3 cfg lead rest x).gentxDir = [] := by
  by_cases hr : x ∈ rest
  · rw [prepF3_mem cfg lead rest x hnd hr]
    show (prepF2 cfg lead rest x).gentxDir = _
    exact prepF2_gentxDir cfg lead rest x
  · rw [prepF3_not_mem cfg lead rest x hr]
    exact prepF2_gentxDir cfg lead rest x

theorem flatMap_singleton_eq_map {α β : Type} (l : List α) (g : α → β) :
    l.flatMap (fun a => [g a]) = l.map g := by
  induction l with
  | nil => rfl
  | cons a as ih => rw [List.flatMap_cons, ih]; rfl

theorem gtxOf_valId (cfg : PrepCfg) (lead a : Nat) (n : NodeSt) :
    (gtxOf cfg lead a n).valId = a := by
  by_cases h : a = lead <;> simp [gtxOf, h]

theorem gtxOf_signed (cfg : PrepCfg) (lead a : Nat) (n : NodeSt) :
    (gtxOf cfg lead a n).signed = true := by
  by_cases h : a = lead <;> simp [gtxOf, h]

theorem gtxOf_stake (cfg : PrepCfg) (lead a : Nat) (n : NodeSt) :
    (gtxOf cfg lead a n).stake = cfg.validatorBalance := by
  by_cases h : a = lead <;> simp [gtxOf, h]

theorem gtxOf_opAddr (cfg : PrepCfg) (lead a : Nat) (n : NodeSt) :
    (gtxOf cfg lead a n).opAddr = valoperOf a := by
  by_cases h : a = lead <;> simp [gtxOf, h]

theorem prepF4_keys (cfg : PrepCfg) (lead : Nat) (rest : List Nat)
    (flat : List Nat) :
    (((lead, applyNodeOverrides cfg) ::
      rest.enum.map (fun ie =>
        (ie.2, fun n =>
          applyPortRow (portRowFor (chunkRows flat rest.length) rest.length ie.1)
            (applyNodeOverrides cfg n)))).map Prod.fst) = lead :: rest := by
  rw [List.map_cons]
  congr 1
  rw [List.map_map]
  have hcomp : (Prod.fst ∘ fun ie : Nat × Nat =>
      ((ie.2 : Nat), fun n =>
        applyPortRow (portRowFor (chunkRows flat rest.length) rest.length ie.1)
          (applyNodeOverrides cfg n))) = Prod.snd := rfl
  rw [hcomp, List.enum_map_snd]

theorem prepF4_lead (cfg : PrepCfg) (lead : Nat) (rest : List Nat)
    (flat : List Nat) (hnd : (lead :: rest).Nodup) :
    prepF4 cfg lead rest flat lead =
      applyNodeOverrides cfg (prepF3 cfg lead rest lead) := by
  unfold prepF4
  exact foldUpdates_mem _ _ lead (applyNodeOverrides cfg)
    (by rw [prepF4_keys]; exact hnd)
    (List.mem_cons_self _ _)

theorem prepF4_rest (cfg : PrepCfg) (lead : Nat) (rest : List Nat)
    (flat : List Nat) (i : Nat) (hnd : (lead :: rest).Nodup)
    (hi : i < rest.length) :
    prepF4 cfg lead rest flat (rest.get ⟨i, hi⟩) =
      applyPortRow (portRowFor (chunkRows flat rest.length) rest.length i)
        (applyNodeOverrides cfg (prepF3 cfg lead rest (rest.get ⟨i, hi⟩))) := by
  unfold prepF4
  have henum : (i, rest.get ⟨i, hi⟩) ∈ rest.enum := by
    have hlen : i < rest.enum.length := by
      rw [List.enum_length]; exact hi
    rw [List.get_eq_getElem, ← List.getElem_enum rest i hlen]
    exact List.getElem_mem hlen
  exact foldUpdates_mem _ _ (rest.get ⟨i, hi⟩)
    (fun n =>
      applyPortRow (portRowFor (chunkRows flat rest.length) rest.length i)
        (applyNodeOverrides cfg n))
    (by rw [prepF4_keys]; exact hnd)
    (List.mem_cons_of_mem _ (List.mem_map.mpr ⟨(i, rest.get ⟨i, hi⟩), henum, rfl⟩))

theorem prepF4_genesis (cfg : PrepCfg) (lead : Nat) (rest : List Nat)
    (flat : List Nat) (x : Nat) :
    (prepF4 cfg lead rest flat x).genesis = (prepF3 cfg lead rest x).genesis := by
  unfold prepF4
  apply foldUpdates_genesis
  intro e he n
  rcases List.mem_cons.mp he with h | h
  · rw [h]
    exact applyNodeOverrides_genesis cfg n
  · rcases List.mem_map.mp h with ⟨ie, hie, rfl⟩
    show (applyPortRow _ (applyNodeOverrides cfg n)).genesis = n.genesis
    rw [applyPortRow_genesis, applyNodeOverrides_genesis]

theorem prepF4_gentxDir (cfg : PrepCfg) (lead : Nat) (rest : List Nat)
    (flat : List Nat) (x : Nat) (hnd : rest.Nodup) :
    (prepF4 cfg lead rest flat x).gentxDir = [] := by
  have step : (prepF4 cfg lead rest flat x).gentxDir =
      (prepF3 cfg lead rest x).gentxDir := by
    unfold prepF4
    apply foldUpdates_gentxDir
    intro e he n
    rcases List.mem_cons.mp he with h | h
    · rw [h]
      exact applyNodeOverrides_gentxDir cfg n
    · rcases List.mem_map.mp h with ⟨ie, hie, rfl⟩
      show (applyPortRow _ (applyNodeOverrides cfg n)).gentxDir = n.gentxDir
      rw [applyPortRow_gentxDir, applyNodeOverrides_gentxDir]
  rw [step]
  exact prepF3_gentxDir cfg lead rest x hnd

theorem gentxNodeOp_dir (cfg : PrepCfg) (lead a : Nat) (n : NodeSt)
    (h : n.gentxDir = []) :
    (gentxNodeOp cfg lead a n).gentxDir = [gtxOf cfg lead a n] := by
  unfold gentxNodeOp gtxOf
  by_cases ha : a = lead
  · simp [ha, addValidatorOp, addKeyOp, h]
  · simp [ha, addValidatorOp, addKeyOp, signGentxOp, rewriteGentxMemoOp, h,
      NodeSt.portOf, NodeSt.get]

theorem prepF5_mem (cfg : PrepCfg) (lead : Nat) (rest : List Nat)
    (flat : List Nat) (x : Nat) (hnd : (lead :: rest).Nodup)
    (hx : x ∈ lead :: rest) :
    prepF5 cfg lead rest flat x =
      gentxNodeOp cfg lead x (prepF4 cfg lead rest flat x) := by
  unfold prepF5
  exact foldUpdates_mem _ _ x (gentxNodeOp cfg lead x)
    (by rw [keys_of_pairs]; exact hnd)
    (List.mem_map.mpr ⟨x, hx, rfl⟩)

theorem prepF5_dir (cfg : PrepCfg) (lead : Nat) (rest : List Nat)
    (flat : List Nat) (x : Nat) (hnd : (lead :: rest).Nodup)
    (hx : x ∈ lead :: rest) :
    (prepF5 cfg lead rest flat x).gentxDir =
      [gtxOf cfg lead x (prepF4 cfg lead rest flat x)] := by
  rw [prepF5_mem cfg lead rest flat x hnd hx]
  exact gentxNodeOp_dir cfg lead x _
    (prepF4_gentxDir cfg lead rest flat x (List.nodup_cons.mp hnd).2)

theorem prepF5_genesis (cfg : PrepCfg) (lead : Nat) (rest : List Nat)
    (flat : List Nat) (x : Nat) :
    (prepF5 cfg lead rest flat x).genesis =
      (prepF4 cfg lead rest flat x).genesis := by
  unfold prepF5
  apply foldUpdates_genesis
  intro e he n
  rcases List.mem_map.mp he with ⟨a, ha, rfl⟩
  exact gentxNodeOp_genesis cfg lead a n

theorem prepF5_config (cfg : PrepCfg) (lead : Nat) (rest : List Nat)
    (flat : List Nat) (x : Nat) :
    (prepF5 cfg lead rest flat x).config =
      (prepF4 cfg lead rest flat x).config := by
  unfold prepF5
  apply foldUpdates_config
  intro e he n
  rcases List.mem_map.mp he with ⟨a, ha, rfl⟩
  exact gentxNodeOp_config cfg lead a n

theorem prepF5_ownSlice (cfg : PrepCfg) (lead : Nat) (rest : List Nat)
    (flat : List Nat) (b : Nat) (hnd : (lead :: rest).Nodup)
    (hb : b ∈ lead :: rest) :
    ownSlice (prepF5 cfg lead rest flat) b =
      [gtxOf cfg lead b (prepF4 cfg lead rest flat b)] := by
  unfold ownSlice
  rw [prepF5_dir cfg lead rest flat b hnd hb]
  simp [gtxOf_valId]

theorem prepF6_dir (cfg : PrepCfg) (lead : Nat) (rest : List Nat)
    (flat : List Nat) (x : Nat) (hnd : (lead :: rest).Nodup)
    (hx : x ∈ lead :: rest) :
    (prepF6 cfg lead rest flat x).gentxDir =
      gtxOf cfg lead x (prepF4 cfg lead rest flat x) ::
        ((lead :: rest).filter (fun b => b ≠ x)).map
          (fun b => gtxOf cfg lead b (prepF4 cfg lead rest flat b)) := by
  unfold prepF6
  rw [phaseExchange_dir _ _ hnd x, if_pos hx]
  show (prepF5 cfg lead rest flat x).gentxDir ++ _ = _
  rw [prepF5_dir cfg lead rest flat x hnd hx]
  unfold gatheredSlices
  have hcongr : ((lead :: rest).filter (fun b => b ≠ x)).flatMap
      (ownSlice (prepF5 cfg lead rest flat)) =
      ((lead :: rest).filter (fun b => b ≠ x)).flatMap
        (fun b => [gtxOf cfg lead b (prepF4 cfg lead rest flat b)]) := by
    apply flatMap_congr_mem
    intro b hbf
    exact prepF5_ownSlice cfg lead rest flat b hnd (List.mem_of_mem_filter hbf)
  rw [hcongr, flatMap_singleton_eq_map]
  rfl

theorem prepF6_genesis (cfg : PrepCfg) (lead : Nat) (rest : List Nat)
    (flat : List Nat) (x : Nat) :
    (prepF6 cfg lead rest flat x).genesis =
      (prepF5 cfg lead rest flat x).genesis := by
  unfold prepF6 phaseExchange
  exact exchangeFold_genesis _ _ x

theorem prepF6_config (cfg : PrepCfg) (lead : Nat) (rest : List Nat)
    (flat : List Nat) (x : Nat) :
    (prepF6 cfg lead rest flat x).config =
      (prepF5 cfg lead rest flat x).config := by
  unfold prepF6 phaseExchange
  exact exchangeFold_config _ _ x

theorem prepF6_dir_signed (cfg : PrepCfg) (lead : Nat) (rest : List Nat)
    (flat : List Nat) (x : Nat) (hnd : (lead :: rest).Nodup)
    (hx : x ∈ lead :: rest) :
    ∀ g ∈ (prepF6 cfg lead rest flat x).gentxDir, g.signed = true := by
  intro g hg
  rw [prepF6_dir cfg lead rest flat x hnd hx] at hg
  rcases List.mem_cons.mp hg with h | h
  · rw [h]
    exact gtxOf_signed cfg lead x _
  · rcases List.mem_map.mp h with ⟨b, hb, rfl⟩
    exact gtxOf_signed cfg lead b _

theorem phaseCollect_ok (vids : List Nat) (f : NodeMap)
    (h : ∀ a ∈ vids, ∀ g ∈ (f a).gentxDir, g.signed = true) :
    phaseCollect vids f = .ok (collectedMap vids f) := by
  unfold phaseCollect
  have hnone : vids.find?
      (fun a => !((f a).gentxDir.all (fun g => g.signed))) = none := by
    rw [List.find?_eq_none]
    intro a ha
    simp only [Bool.not_eq_true', Bool.not_eq_false]
    rw [List.all_eq_true]
    exact h a ha
  rw [hnone]

/-- Successful unfolding of `prepare`: when the validator list is nonempty
and the OS yields enough ports, `prepare` succeeds and its result is the
collected exchange state with the full trace. -/
theorem prepare_ok (cfg : PrepCfg) (supply : List Nat) (lead : Nat)
    (rest : List Nat) (hd : dedupKeys cfg.validatorIds = lead :: rest)
    (hs : numRoles * rest.length ≤ supply.length) :
    prepare cfg supply = .ok
      { ids := lead :: rest
        lead := lead
        node := collectedMap (lead :: rest)
          (prepF6 cfg lead rest (supply.take (numRoles * rest.length)))
        trace := prepTrace cfg lead rest (supply.take (numRoles * rest.length))
        allocated := supply.take (numRoles * rest.length) } := by
  have hnd : (lead :: rest).Nodup := hd ▸ nodup_dedupKeys cfg.validatorIds
  unfold prepare
  rw [hd]
  show prepareWith cfg supply lead rest = _
  unfold prepareWith
  have h1 : get_free_ports supply (numRoles * rest.length) =
      Except.ok (supply.take (numRoles * rest.length)) := by
    unfold get_free_ports
    exact if_pos hs
  have hcol : phaseCollect (lead :: rest)
      (prepF6 cfg lead rest (supply.take (numRoles * rest.length))) =
      Except.ok (collectedMap (lead :: rest)
        (prepF6 cfg lead rest (supply.take (numRoles * rest.length)))) :=
    phaseCollect_ok _ _
      (fun a ha => prepF6_dir_signed cfg lead rest
        (supply.take (numRoles * rest.length)) a hnd ha)
  simp only [h1, hcol]

theorem prepare_isOk_inv (cfg : PrepCfg) (supply : List Nat)
    (h : (prepare cfg supply).isOk = true) :
    ∃ lead rest, dedupKeys cfg.validatorIds = lead :: rest ∧
      numRoles * rest.length ≤ supply.length := by
  cases hd : dedupKeys cfg.validatorIds with
  | nil =>
    unfold prepare at h
    rw [hd] at h
    simp [Except.isOk, Except.toBool] at h
  | cons lead rest =>
    refine ⟨lead, rest, rfl, ?_⟩
    by_contra hc
    push_neg at hc
    unfold prepare at h
    rw [hd] at h
    have h2 : (prepareWith cfg supply lead rest).isOk = true := h
    unfold prepareWith get_free_ports at h2
    rw [if_neg (by omega)] at h2
    simp [Except.isOk, Except.toBool] at h2

/-- Result projection after a successful run. -/
theorem prepGetD_ok (cfg : PrepCfg) (supply : List Nat) (lead : Nat)
    (rest : List Nat) (hd : dedupKeys cfg.validatorIds = lead :: rest)
    (hs : numRoles * rest.length ≤ supply.length) :
    prepGetD (prepare cfg supply) =
      { ids := lead :: rest
        lead := lead
        node := collectedMap (lead :: rest)
          (prepF6 cfg lead rest (supply.take (numRoles * rest.length)))
        trace := prepTrace cfg lead rest (supply.take (numRoles * rest.length))
        allocated := supply.take (numRoles * rest.length) } := by
  rw [prepare_ok cfg supply lead rest hd hs]
  rfl

theorem perm_cons_filter (x : Nat) :
    ∀ (l : List Nat), x ∈ l → l.Nodup →
      List.Perm (x :: l.filter (fun b => b ≠ x)) l := by
  intro l
  induction l with
  | nil => intro hx; cases hx
  | cons a as ih =>
    intro hx hnd
    by_cases hax : x = a
    · have hnot : a ∉ as := (List.nodup_cons.mp hnd).1
      have hfa : (a :: as).filter (fun b => b ≠ a) = as := by
        rw [List.filter_cons, if_neg (by simp)]
        apply List.filter_eq_self.mpr
        intro b hb
        exact decide_eq_true (fun hc => hnot ((hc : b = a) ▸ hb))
      rw [hax, hfa]
    · have hxas : x ∈ as := by
        rcases List.mem_cons.mp hx with h | h
        · exact absurd h hax
        · exact h
      have hf : (a :: as).filter (fun b => b ≠ x) =
          a :: as.filter (fun b => b ≠ x) := by
        have hax2 : ¬ (a = x) := fun hc => hax hc.symm
        simp [List.filter_cons, hax2]
      rw [hf]
      have h1 : List.Perm (x :: a :: as.filter (fun b => b ≠ x))
          (a :: x :: as.filter (fun b => b ≠ x)) := List.Perm.swap a x _
      have h2 : List.Perm (a :: x :: as.filter (fun b => b ≠ x)) (a :: as) :=
        List.Perm.cons a (ih hxas (List.nodup_cons.mp hnd).2)
      exact h1.trans h2

theorem mem_gentxEventsFor {cfg : PrepCfg} {lead a : Nat} {n : NodeSt}
    {e : Event} (h : e ∈ gentxEventsFor cfg lead a n) :
    e = Event.addKey a ∨ e = Event.addValidator a cfg.validatorBalance ∨
      (a ≠ lead ∧ (e = Event.updateGentxMemo a (n.portOf p2pRole) ∨
        e = Event.signGentx a a)) := by
  unfold gentxEventsFor at h
  rcases List.mem_append.mp h with h2 | h2
  · rcases List.mem_cons.mp h2 with h3 | h3
    · exact Or.inl h3
    · rcases List.mem_cons.mp h3 with h4 | h4
      · exact Or.inr (Or.inl h4)
      · cases h4
  · by_cases hal : a = lead
    · rw [if_neg (fun hc => hc hal)] at h2
      cases h2
    · rw [if_pos hal] at h2
      rcases List.mem_cons.mp h2 with h3 | h3
      · exact Or.inr (Or.inr ⟨hal, Or.inl h3⟩)
      · rcases List.mem_cons.mp h3 with h4 | h4
        · exact Or.inr (Or.inr ⟨hal, Or.inr h4⟩)
        · cases h4

theorem mem_exchangePairs {vids : List Nat} {p : Nat × Nat} :
    p ∈ exchangePairs vids ↔ p.1 ∈ vids ∧ p.2 ∈ vids ∧ p.2 ≠ p.1 := by
  unfold exchangePairs
  constructor
  · intro h
    rcases List.mem_flatMap.mp h with ⟨a, ha, hin⟩
    rcases List.mem_map.mp hin with ⟨b, hb, rfl⟩
    have hne := List.of_mem_filter hb
    simp only [decide_eq_true_eq] at hne
    exact ⟨ha, List.mem_of_mem_filter hb, hne⟩
  · rintro ⟨h1, h2, h3⟩
    exact List.mem_flatMap.mpr ⟨p.1, h1, List.mem_map.mpr ⟨p.2,
      List.mem_filter.mpr ⟨h2, decide_eq_true h3⟩, rfl⟩⟩

/-- Shape inversion for the `prepare` trace: every event is one of the ten
shapes, one per loop of the source. -/
theorem prepTrace_shape (cfg : PrepCfg) (lead : Nat) (rest : List Nat)
    (flat : List Nat) (e : Event) (he : e ∈ prepTrace cfg lead rest flat) :
    (∃ a, a ∈ lead :: rest ∧ e = Event.initEv a) ∨
    (∃ kv, kv ∈ cfg.configGenesis ∧ e = Event.setGenesisParam lead kv.1) ∨
    (∃ en, en ∈ fundEntries cfg (lead :: rest) (dedupKeys cfg.accountIds) ∧
      e = Event.addAccount lead en.1 en.2) ∨
    (∃ a, a ∈ rest ∧ e = Event.copyGenesisFrom a lead) ∨
    (∃ a, a ∈ lead :: rest ∧ ∃ fl k, e = Event.setConfig a fl k) ∨
    (∃ ie, ie ∈ rest.enum ∧ ∃ jp, jp ∈ portRoles.enum ∧
      e = Event.updatePortField ie.2 jp.2.config_file jp.2.property_path
        ((portRowFor (chunkRows flat rest.length) rest.length ie.1).getD jp.1 0)) ∨
    (∃ a, a ∈ lead :: rest ∧
      (e = Event.addKey a ∨ e = Event.addValidator a cfg.validatorBalance)) ∨
    (∃ a, a ∈ rest ∧
      (e = Event.updateGentxMemo a
          ((prepF4 cfg lead rest flat a).portOf p2pRole) ∨
        e = Event.signGentx a a)) ∨
    (∃ p, p ∈ exchangePairs (lead :: rest) ∧ e = Event.copyGentxFrom p.1 p.2) ∨
    (∃ a, a ∈ lead :: rest ∧ e = Event.collectGentx a) := by
  unfold prepTrace trBeforeCollect at he
  rcases List.mem_append.mp he with hbc | h
  rotate_left
  · unfold trCollect at h
    rcases List.mem_map.mp h with ⟨a, ha, rfl⟩
    exact Or.inr (Or.inr (Or.inr (Or.inr (Or.inr (Or.inr (Or.inr (Or.inr
      (Or.inr ⟨a, ha, rfl⟩))))))))
  rcases List.mem_append.mp hbc with hbc | h
  rotate_left
  · unfold trExchange at h
    rcases List.mem_map.mp h with ⟨p, hp, rfl⟩
    exact Or.inr (Or.inr (Or.inr (Or.inr (Or.inr (Or.inr (Or.inr (Or.inr
      (Or.inl ⟨p, hp, rfl⟩))))))))
  rcases List.mem_append.mp hbc with hbc | h
  rotate_left
  · unfold trGentx at h
    rcases List.mem_flatMap.mp h with ⟨a, ha, hin⟩
    rcases mem_gentxEventsFor hin with h3 | h3 | ⟨hal, h3 | h3⟩
    · exact Or.inr (Or.inr (Or.inr (Or.inr (Or.inr (Or.inr (Or.inl
        ⟨a, ha, Or.inl h3⟩))))))
    · exact Or.inr (Or.inr (Or.inr (Or.inr (Or.inr (Or.inr (Or.inl
        ⟨a, ha, Or.inr h3⟩))))))
    · have har : a ∈ rest := by
        rcases List.mem_cons.mp ha with h5 | h5
        · exact absurd h5 hal
        · exact h5
      exact Or.inr (Or.inr (Or.inr (Or.inr (Or.inr (Or.inr (Or.inr
        (Or.inl ⟨a, har, Or.inl h3⟩)))))))
    · have har : a ∈ rest := by
        rcases List.mem_cons.mp ha with h5 | h5
        · exact absurd h5 hal
        · exact h5
      exact Or.inr (Or.inr (Or.inr (Or.inr (Or.inr (Or.inr (Or.inr
        (Or.inl ⟨a, har, Or.inr h3⟩)))))))
  rcases List.mem_append.mp hbc with hbc | h
  rotate_left
  · unfold trConfigPorts at h
    rcases List.mem_append.mp h with h | h
    · rcases List.mem_flatMap.mp h with ⟨fc, hfc, hin⟩
      rcases List.mem_map.mp hin with ⟨kv, hkv, rfl⟩
      exact Or.inr (Or.inr (Or.inr (Or.inr (Or.inl
        ⟨lead, List.mem_cons_self _ _, _, _, rfl⟩))))
    · rcases List.mem_flatMap.mp h with ⟨ie, hie, hin⟩
      rcases List.mem_append.mp hin with h2 | h2
      · rcases List.mem_flatMap.mp h2 with ⟨fc, hfc, hin2⟩
        rcases List.mem_map.mp hin2 with ⟨kv, hkv, rfl⟩
        exact Or.inr (Or.inr (Or.inr (Or.inr (Or.inl
          ⟨ie.2, List.mem_cons_of_mem _ (List.snd_mem_of_mem_enum hie),
            _, _, rfl⟩))))
      · rcases List.mem_map.mp h2 with ⟨jp, hjp, rfl⟩
        exact Or.inr (Or.inr (Or.inr (Or.inr (Or.inr (Or.inl
          ⟨ie, hie, jp, hjp, rfl⟩)))))
  rcases List.mem_append.mp hbc with hbc | h
  rotate_left
  · unfold trCopyGenesis at h
    rcases List.mem_map.mp h with ⟨a, ha, rfl⟩
    exact Or.inr (Or.inr (Or.inr (Or.inl ⟨a, ha, rfl⟩)))
  rcases List.mem_append.mp hbc with hbc | h
  rotate_left
  · unfold trFund at h
    rcases List.mem_map.mp h with ⟨en, hen, rfl⟩
    exact Or.inr (Or.inr (Or.inl ⟨en, hen, rfl⟩))
  rcases List.mem_append.mp hbc with h | h
  · unfold trInit at h
    rcases List.mem_map.mp h with ⟨a, ha, rfl⟩
    exact Or.inl ⟨a, ha, rfl⟩
  · unfold trGenOverrides at h
    rcases List.mem_map.mp h with ⟨kv, hkv, rfl⟩
    exact Or.inr (Or.inl ⟨kv, hkv, rfl⟩)

/-! The claims. -/

/-- C7: `broadcast_transaction` fails with `ConfigurationError` when the
sender account lacks usable signing material (no mnemonic), and this
failure occurs before any node endpoint is contacted or any transaction is
submitted — the emitted step list is empty, so no query, signing or
submission happened and no state was touched. -/
theorem claim_c7 (lead : Nat) (account : SdkAccount) (vId : Option Nat)
    (env : ChainEnv) (h : account.mnemonic = none) :
    (∃ msg, (broadcast_transaction lead account vId env).1 =
      .error (.configurationError msg)) ∧
    (broadcast_transaction lead account vId env).2 = [] := by
  unfold broadcast_transaction
  rw [h]
  exact ⟨⟨_, rfl⟩, rfl⟩

theorem claim_c7_witness :
    (∃ msg, (broadcast_transaction 0 acctNoMn none envEx).1 =
      .error (.configurationError msg)) ∧
    (broadcast_transaction 0 acctNoMn none envEx).2 = [] :=
  claim_c7 0 acctNoMn none envEx rfl

/-- C8: with signing material present, `broadcast_transaction` queries the
target node's account-info interface for the sender, signs with exactly the
queried `(accountNumber, sequence)` pair, submits exactly once in
wait-for-commit (`BROADCAST_MODE_BLOCK`) mode, and returns the chain's
response verbatim — also when its code is nonzero, which is returned as
data and never raised or retried. -/
theorem claim_c8 (lead : Nat) (account : SdkAccount) (vId : Option Nat)
    (env : ChainEnv) (m : String) (h : account.mnemonic = some m) :
    (broadcast_transaction lead account vId env).1 = .ok env.response ∧
    (broadcast_transaction lead account vId env).2 =
      [BcastEvent.queryAccountInfo (resolveTarget lead vId) account.address,
       BcastEvent.signTx env.accountNumber env.sequence,
       BcastEvent.broadcastTx (resolveTarget lead vId) BroadcastMode.block] := by
  unfold broadcast_transaction
  rw [h]
  exact ⟨rfl, rfl⟩

theorem claim_c8_witness :
    ((broadcast_transaction 0 acctMn none envEx).1 = .ok envEx.response ∧
      (broadcast_transaction 0 acctMn none envEx).2 =
        [BcastEvent.queryAccountInfo (resolveTarget 0 none) acctMn.address,
         BcastEvent.signTx envEx.accountNumber envEx.sequence,
         BcastEvent.broadcastTx (resolveTarget 0 none) BroadcastMode.block]) ∧
    envEx.response.code ≠ 0 :=
  ⟨claim_c8 0 acctMn none envEx "word list" rfl, by decide⟩

/-- C9 counterexample: the claim says `teardown()` never fails on a
never-prepared Testnet, but on such a Testnet the `validator_nodes`
attribute does not exist (it is assigned only inside `prepare()`, line
154), so the loop header raises `AttributeError`. -/
theorem claim_c9_cx : (teardown ⟨none⟩).isOk = false := rfl

/-- C9 (amended): once `prepare()` has reached node construction — so the
`validator_nodes` attribute exists, covering partially-prepared,
partially-started and fully-running states — `teardown()` never fails,
calling it twice in a row never fails, and `close()` on an unstarted node
never fails (it is total and idempotent). -/
theorem claim_c9 (t : TestnetLifecycle) (ns : List (Nat × NodeSt))
    (h : t.validatorNodes = some ns) :
    (teardown t).isOk = true ∧
    (∀ t2, teardown t = .ok t2 → (teardown t2).isOk = true) ∧
    (∀ n : NodeSt, closeNode (closeNode n) = closeNode n ∧
      (n.started = false → closeNode n = n)) := by
  refine ⟨?_, ?_, ?_⟩
  · unfold teardown
    rw [h]
    rfl
  · intro t2 h2
    unfold teardown at h2
    rw [h] at h2
    have ht2 : t2 = ⟨some (ns.map (fun p => (p.1, closeNode p.2)))⟩ := by
      cases h2
      rfl
    rw [ht2]
    unfold teardown
    rfl
  · intro n
    constructor
    · rfl
    · intro hs
      cases n
      simp only [closeNode]
      rw [← hs]

theorem claim_c9_witness :
    (teardown ⟨some []⟩).isOk = true ∧
    (∀ t2, teardown ⟨some []⟩ = .ok t2 → (teardown t2).isOk = true) ∧
    (∀ n : NodeSt, closeNode (closeNode n) = closeNode n ∧
      (n.started = false → closeNode n = n)) :=
  claim_c9 ⟨some []⟩ [] rfl

/-- Every node's genesis after collection: the funded lead genesis with the
node's own final directory folded in. -/
theorem collected_genesis (cfg : PrepCfg) (lead : Nat) (rest : List Nat)
    (flat : List Nat) (x : Nat) (hnd : (lead :: rest).Nodup)
    (hx : x ∈ lead :: rest) :
    (collectedMap (lead :: rest) (prepF6 cfg lead rest flat) x).genesis =
      { (prepF2 cfg lead rest lead).genesis with
        gentxs := (prepF6 cfg lead rest flat x).gentxDir } := by
  unfold collectedMap
  rw [if_pos hx]
  unfold collectInto
  have hg : (prepF6 cfg lead rest flat x).genesis =
      (prepF2 cfg lead rest lead).genesis := by
    rw [prepF6_genesis, prepF5_genesis, prepF4_genesis]
    exact prepF3_genesis cfg lead rest x (List.nodup_cons.mp hnd).2 hx
  rw [hg]

/-! Membership injections into the trace, one per segment used below. -/

theorem mem_trace_copyGenesis (cfg : PrepCfg) (lead : Nat) (rest : List Nat)
    (flat : List Nat) (a : Nat) (ha : a ∈ rest) :
    Event.copyGenesisFrom a lead ∈ prepTrace cfg lead rest flat := by
  unfold prepTrace trBeforeCollect trCopyGenesis
  exact List.mem_append_left _ (List.mem_append_left _ (List.mem_append_left _
    (List.mem_append_left _ (List.mem_append_right _
      (List.mem_map.mpr ⟨a, ha, rfl⟩)))))

theorem mem_trace_overrideLead (cfg : PrepCfg) (lead : Nat) (rest : List Nat)
    (flat : List Nat) (e : Event) (he : e ∈ overrideEventsFor cfg lead) :
    e ∈ prepTrace cfg lead rest flat := by
  unfold prepTrace trBeforeCollect trConfigPorts
  exact List.mem_append_left _ (List.mem_append_left _ (List.mem_append_left _
    (List.mem_append_right _ (List.mem_append_left _ he))))

theorem mem_trace_portSeg (cfg : PrepCfg) (lead : Nat) (rest : List Nat)
    (flat : List Nat) (e : Event) (ie : Nat × Nat) (hie : ie ∈ rest.enum)
    (he : e ∈ overrideEventsFor cfg ie.2 ++
      portEventsFor ie.2
        (portRowFor (chunkRows flat rest.length) rest.length ie.1)) :
    e ∈ prepTrace cfg lead rest flat := by
  unfold prepTrace trBeforeCollect trConfigPorts
  exact List.mem_append_left _ (List.mem_append_left _ (List.mem_append_left _
    (List.mem_append_right _ (List.mem_append_right _
      (List.mem_flatMap.mpr ⟨ie, hie, he⟩)))))

theorem mem_trace_gentxSeg (cfg : PrepCfg) (lead : Nat) (rest : List Nat)
    (flat : List Nat) (e : Event) (a : Nat) (ha : a ∈ lead :: rest)
    (he : e ∈ gentxEventsFor cfg lead a (prepF4 cfg lead rest flat a)) :
    e ∈ prepTrace cfg lead rest flat := by
  unfold prepTrace trBeforeCollect trGentx
  exact List.mem_append_left _ (List.mem_append_left _
    (List.mem_append_right _ (List.mem_flatMap.mpr ⟨a, ha, he⟩)))

theorem mem_trace_exchange (cfg : PrepCfg) (lead : Nat) (rest : List Nat)
    (flat : List Nat) (p : Nat × Nat) (hp : p ∈ exchangePairs (lead :: rest)) :
    Event.copyGentxFrom p.1 p.2 ∈ prepTrace cfg lead rest flat := by
  unfold prepTrace trBeforeCollect trExchange
  exact List.mem_append_left _ (List.mem_append_right _
    (List.mem_map.mpr ⟨p, hp, rfl⟩))

/-- C2: the lead validator is always element 0 of the validator ordering —
both for `set_validators` on any argument and in the prepared result — and
all ceremony genesis content flows from it alone: every genesis parameter
override and every funding `add_account` call targets the lead, every
non-lead node's genesis is overwritten by a copy of the lead's (and only
the lead is ever a copy source), and the lead is the default target node
when none is given for broadcast. -/
theorem claim_c2 (cfg : PrepCfg) (supply : List Nat) (arg : ValidatorsArg)
    (l : List Nat) (ld : Nat) (hsv : set_validators arg = .ok (l, ld))
    (h : (prepare cfg supply).isOk = true) :
    ld = l.headD 0 ∧
    (prepGetD (prepare cfg supply)).lead =
      (prepGetD (prepare cfg supply)).ids.headD 0 ∧
    (∀ e ∈ (prepGetD (prepare cfg supply)).trace,
      (isSetGenesisEv e = true ∨ isAddAccountEv e = true) →
        evNode e = (prepGetD (prepare cfg supply)).lead) ∧
    (∀ a ∈ (prepGetD (prepare cfg supply)).ids,
      a ≠ (prepGetD (prepare cfg supply)).lead →
        Event.copyGenesisFrom a (prepGetD (prepare cfg supply)).lead ∈
          (prepGetD (prepare cfg supply)).trace) ∧
    (∀ e ∈ (prepGetD (prepare cfg supply)).trace, ∀ d s,
      e = Event.copyGenesisFrom d s →
        s = (prepGetD (prepare cfg supply)).lead ∧
          d ≠ (prepGetD (prepare cfg supply)).lead) ∧
    (∀ v : Nat, resolveTarget (prepGetD (prepare cfg supply)).lead none =
      (prepGetD (prepare cfg supply)).lead ∧
      resolveTarget (prepGetD (prepare cfg supply)).lead (some v) = v) := by
  obtain ⟨lead, rest, hd, hs⟩ := prepare_isOk_inv cfg supply h
  have hnd : (lead :: rest).Nodup := hd ▸ nodup_dedupKeys cfg.validatorIds
  have hln : lead ∉ rest := (List.nodup_cons.mp hnd).1
  rw [prepGetD_ok cfg supply lead rest hd hs]
  dsimp only
  refine ⟨?_, rfl, ?_, ?_, ?_, fun v => ⟨rfl, rfl⟩⟩
  · unfold set_validators at hsv
    cases hl : validatorsList arg with
    | nil =>
      rw [hl] at hsv
      exact Except.noConfusion hsv
    | cons hh tt =>
      rw [hl] at hsv
      cases hsv
      rfl
  · intro e he hcl
    rcases prepTrace_shape cfg lead rest _ e he with
      h1 | h1 | h1 | h1 | h1 | h1 | h1 | h1 | h1 | h1
    · rcases h1 with ⟨a, _, rfl⟩
      simp [isSetGenesisEv, isAddAccountEv] at hcl
    · rcases h1 with ⟨kv, _, rfl⟩
      rfl
    · rcases h1 with ⟨en, _, rfl⟩
      rfl
    · rcases h1 with ⟨a, _, rfl⟩
      simp [isSetGenesisEv, isAddAccountEv] at hcl
    · rcases h1 with ⟨a, _, fl, k, rfl⟩
      simp [isSetGenesisEv, isAddAccountEv] at hcl
    · rcases h1 with ⟨ie, _, jp, _, rfl⟩
      simp [isSetGenesisEv, isAddAccountEv] at hcl
    · rcases h1 with ⟨a, _, h2 | h2⟩ <;>
        · rw [h2] at hcl
          simp [isSetGenesisEv, isAddAccountEv] at hcl
    · rcases h1 with ⟨a, _, h2 | h2⟩ <;>
        · rw [h2] at hcl
          simp [isSetGenesisEv, isAddAccountEv] at hcl
    · rcases h1 with ⟨p, _, rfl⟩
      simp [isSetGenesisEv, isAddAccountEv] at hcl
    · rcases h1 with ⟨a, _, rfl⟩
      simp [isSetGenesisEv, isAddAccountEv] at hcl
  · intro a ha hne
    have har : a ∈ rest := by
      rcases List.mem_cons.mp ha with h2 | h2
      · exact absurd h2 hne
      · exact h2
    exact mem_trace_copyGenesis cfg lead rest _ a har
  · intro e he d s heq
    rcases prepTrace_shape cfg lead rest _ e he with
      h1 | h1 | h1 | h1 | h1 | h1 | h1 | h1 | h1 | h1
    · rcases h1 with ⟨a, _, rfl⟩; exact Event.noConfusion heq
    · rcases h1 with ⟨kv, _, rfl⟩; exact Event.noConfusion heq
    · rcases h1 with ⟨en, _, rfl⟩; exact Event.noConfusion heq
    · rcases h1 with ⟨a, har, rfl⟩
      cases heq
      exact ⟨rfl, fun hc => hln (hc ▸ har)⟩
    · rcases h1 with ⟨a, _, fl, k, rfl⟩; exact Event.noConfusion heq
    · rcases h1 with ⟨ie, _, jp, _, rfl⟩; exact Event.noConfusion heq
    · rcases h1 with ⟨a, _, h2 | h2⟩ <;>
        · rw [h2] at heq; exact Event.noConfusion heq
    · rcases h1 with ⟨a, _, h2 | h2⟩ <;>
        · rw [h2] at heq; exact Event.noConfusion heq
    · rcases h1 with ⟨p, _, rfl⟩; exact Event.noConfusion heq
    · rcases h1 with ⟨a, _, rfl⟩; exact Event.noConfusion heq

theorem claim_c2_witness :
    (0 = [0, 1].headD 0 ∧
    (prepGetD (prepare cfgEx supplyEx)).lead =
      (prepGetD (prepare cfgEx supplyEx)).ids.headD 0 ∧
    (∀ e ∈ (prepGetD (prepare cfgEx supplyEx)).trace,
      (isSetGenesisEv e = true ∨ isAddAccountEv e = true) →
        evNode e = (prepGetD (prepare cfgEx supplyEx)).lead) ∧
    (∀ a ∈ (prepGetD (prepare cfgEx supplyEx)).ids,
      a ≠ (prepGetD (prepare cfgEx supplyEx)).lead →
        Event.copyGenesisFrom a (prepGetD (prepare cfgEx supplyEx)).lead ∈
          (prepGetD (prepare cfgEx supplyEx)).trace) ∧
    (∀ e ∈ (prepGetD (prepare cfgEx supplyEx)).trace, ∀ d s,
      e = Event.copyGenesisFrom d s →
        s = (prepGetD (prepare cfgEx supplyEx)).lead ∧
          d ≠ (prepGetD (prepare cfgEx supplyEx)).lead) ∧
    (∀ v : Nat, resolveTarget (prepGetD (prepare cfgEx supplyEx)).lead none =
      (prepGetD (prepare cfgEx supplyEx)).lead ∧
      resolveTarget (prepGetD (prepare cfgEx supplyEx)).lead (some v) = v)) ∧
    set_validators (ValidatorsArg.ids [0, 1]) = .ok ([0, 1], 0) :=
  ⟨claim_c2 cfgEx supplyEx (ValidatorsArg.ids [0, 1]) [0, 1] 0 rfl (by decide),
    rfl⟩

theorem trBeforeCollect_no_collect (cfg : PrepCfg) (lead : Nat)
    (rest : List Nat) (flat : List Nat) :
    ∀ e ∈ trBeforeCollect cfg lead rest flat, isCollectEv e = false := by
  intro e he
  unfold trBeforeCollect at he
  rcases List.mem_append.mp he with hbc | h
  rotate_left
  · unfold trExchange at h
    rcases List.mem_map.mp h with ⟨p, _, rfl⟩
    rfl
  rcases List.mem_append.mp hbc with hbc | h
  rotate_left
  · unfold trGentx at h
    rcases List.mem_flatMap.mp h with ⟨a, _, hin⟩
    rcases mem_gentxEventsFor hin with h3 | h3 | ⟨_, h3 | h3⟩ <;>
      simp [h3, isCollectEv]
  rcases List.mem_append.mp hbc with hbc | h
  rotate_left
  · unfold trConfigPorts at h
    rcases List.mem_append.mp h with h | h
    · rcases List.mem_flatMap.mp h with ⟨fc, _, hin⟩
      rcases List.mem_map.mp hin with ⟨kv, _, rfl⟩
      rfl
    · rcases List.mem_flatMap.mp h with ⟨ie, _, hin⟩
      rcases List.mem_append.mp hin with h2 | h2
      · rcases List.mem_flatMap.mp h2 with ⟨fc, _, hin2⟩
        rcases List.mem_map.mp hin2 with ⟨kv, _, rfl⟩
        rfl
      · rcases List.mem_map.mp h2 with ⟨jp, _, rfl⟩
        rfl
  rcases List.mem_append.mp hbc with hbc | h
  rotate_left
  · unfold trCopyGenesis at h
    rcases List.mem_map.mp h with ⟨a, _, rfl⟩
    rfl
  rcases List.mem_append.mp hbc with hbc | h
  rotate_left
  · unfold trFund at h
    rcases List.mem_map.mp h with ⟨en, _, rfl⟩
    rfl
  rcases List.mem_append.mp hbc with h | h
  · unfold trInit at h
    rcases List.mem_map.mp h with ⟨a, _, rfl⟩
    rfl
  · unfold trGenOverrides at h
    rcases List.mem_map.mp h with ⟨kv, _, rfl⟩
    rfl

theorem sep_indices_of_eq (l l₁ l₂ : List Event) (P Q : Event → Bool)
    (hl : l = l₁ ++ l₂) (hP : ∀ e ∈ l₂, P e = false)
    (hQ : ∀ e ∈ l₁, Q e = false) :
    ∀ i j (hi : i < l.length) (hj : j < l.length),
      P (l.get ⟨i, hi⟩) = true → Q (l.get ⟨j, hj⟩) = true → i < j := by
  subst hl
  exact sep_indices l₁ l₂ P Q hP hQ

theorem collected_config (cfg : PrepCfg) (lead : Nat) (rest : List Nat)
    (flat : List Nat) (x : Nat) :
    (collectedMap (lead :: rest) (prepF6 cfg lead rest flat) x).config =
      (prepF4 cfg lead rest flat x).config := by
  unfold collectedMap
  by_cases hx : x ∈ lead :: rest
  · rw [if_pos hx]
    show (prepF6 cfg lead rest flat x).config = _
    rw [prepF6_config, prepF5_config]
  · rw [if_neg hx, prepF6_config, prepF5_config]

theorem collected_portOf (cfg : PrepCfg) (lead : Nat) (rest : List Nat)
    (flat : List Nat) (x : Nat) (role : ConfigPort) :
    (collectedMap (lead :: rest) (prepF6 cfg lead rest flat) x).portOf role =
      (prepF4 cfg lead rest flat x).portOf role := by
  unfold NodeSt.portOf NodeSt.get
  rw [collected_config]

/-- The first five trace segments carry no gentx-file events at all. -/
theorem trPre5_no_gentx_events (cfg : PrepCfg) (lead : Nat) (rest : List Nat)
    (flat : List Nat) :
    ∀ e ∈ trInit lead rest ++ trGenOverrides cfg lead ++
        trFund cfg lead rest ++ trCopyGenesis lead rest ++
        trConfigPorts cfg lead rest flat,
      ∀ a, isMemoUpdFor a e = false ∧ isSignFor a e = false := by
  intro e he
  rcases List.mem_append.mp he with hbc | h
  rotate_left
  · unfold trConfigPorts at h
    rcases List.mem_append.mp h with h | h
    · rcases List.mem_flatMap.mp h with ⟨fc, _, hin⟩
      rcases List.mem_map.mp hin with ⟨kv, _, rfl⟩
      exact fun a => ⟨rfl, rfl⟩
    · rcases List.mem_flatMap.mp h with ⟨ie, _, hin⟩
      rcases List.mem_append.mp hin with h2 | h2
      · rcases List.mem_flatMap.mp h2 with ⟨fc, _, hin2⟩
        rcases List.mem_map.mp hin2 with ⟨kv, _, rfl⟩
        exact fun a => ⟨rfl, rfl⟩
      · rcases List.mem_map.mp h2 with ⟨jp, _, rfl⟩
        exact fun a => ⟨rfl, rfl⟩
  rcases List.mem_append.mp hbc with hbc | h
  rotate_left
  · unfold trCopyGenesis at h
    rcases List.mem_map.mp h with ⟨b, _, rfl⟩
    exact fun a => ⟨rfl, rfl⟩
  rcases List.mem_append.mp hbc with hbc | h
  rotate_left
  · unfold trFund at h
    rcases List.mem_map.mp h with ⟨en, _, rfl⟩
    exact fun a => ⟨rfl, rfl⟩
  rcases List.mem_append.mp hbc with h | h
  · unfold trInit at h
    rcases List.mem_map.mp h with ⟨b, _, rfl⟩
    exact fun a => ⟨rfl, rfl⟩
  · unfold trGenOverrides at h
    rcases List.mem_map.mp h with ⟨kv, _, rfl⟩
    exact fun a => ⟨rfl, rfl⟩

/-- Gentx-step events of a node other than `a` are never `a`'s memo update
or `a`'s re-sign. -/
theorem gentxEventsFor_other (cfg : PrepCfg) (lead a b : Nat) (n : NodeSt)
    (hba : b ≠ a) :
    ∀ e ∈ gentxEventsFor cfg lead b n,
      isMemoUpdFor a e = false ∧ isSignFor a e = false := by
  intro e he
  rcases mem_gentxEventsFor he with h3 | h3 | ⟨_, h3 | h3⟩ <;> rw [h3]
  · exact ⟨rfl, rfl⟩
  · exact ⟨rfl, rfl⟩
  · exact ⟨beq_eq_false_iff_ne.mpr hba, rfl⟩
  · exact ⟨rfl, beq_eq_false_iff_ne.mpr hba⟩

theorem getD_mem_enum {α : Type} {l : List α} {d : α} {i : Nat}
    (hi : i < l.length) : (i, l.getD i d) ∈ l.enum := by
  have h1 : l.getD i d = l.get ⟨i, hi⟩ := by
    rw [List.getD_eq_getElem?_getD, List.getElem?_eq_getElem hi]
    rfl
  have hlen : i < l.enum.length := by
    rw [List.enum_length]
    exact hi
  rw [h1, List.get_eq_getElem, ← List.getElem_enum l i hlen]
  exact List.getElem_mem hlen

/-- The port a popped row hands a role: entry `j` of row `m - 1 - i` of the
reshaped list is flat entry `(m - 1 - i) * numRoles + j`. -/
theorem portRowFor_getD (flat : List Nat) (m i j : Nat) (hi : i < m)
    (hj : j < numRoles) :
    (portRowFor (chunkRows flat m) m i).getD j 0 =
      flat.getD ((m - 1 - i) * numRoles + j) 0 := by
  have hk : m - 1 - i < m := by omega
  unfold portRowFor chunkRows
  have hrow : ((List.range m).map
      (fun k => (flat.drop (k * numRoles)).take numRoles)).getD (m - 1 - i) [] =
      (flat.drop ((m - 1 - i) * numRoles)).take numRoles := by
    rw [List.getD_eq_getElem?_getD, List.getElem?_map, List.getElem?_range hk]
    rfl
  rw [hrow, List.getD_eq_getElem?_getD, List.getElem?_take, if_pos hj,
    List.getElem?_drop, List.getD_eq_getElem?_getD]

/-- Port lookup depends only on the config document. -/
theorem portOf_eq_of_config (n m : NodeSt) (hc : n.config = m.config)
    (role : ConfigPort) : n.portOf role = m.portOf role := by
  unfold NodeSt.portOf NodeSt.get
  rw [hc]

/-- C3: port assignment partitions the flat allocated port list into
deterministic per-node, per-role blocks — the i-th non-lead node of the
iteration (creation) order receives, for the role at declared index j, flat
entry `(m - 1 - i) * numRoles + j` (the `all_ports.pop()` hands out rows
from the end) — every port-rewrite event names a non-lead node, and with no
declared config overrides the lead node's listening-address fields still
hold the binary-assigned defaults after `prepare`. -/
theorem claim_c3 (cfg : PrepCfg) (supply : List Nat)
    (h : (prepare cfg supply).isOk = true) :
    (∀ i, i < (prepGetD (prepare cfg supply)).ids.tail.length →
      ∀ j, j < numRoles →
        Event.updatePortField
            ((prepGetD (prepare cfg supply)).ids.tail.getD i 0)
            ((portRoles.getD j ⟨"", "", ""⟩).config_file)
            ((portRoles.getD j ⟨"", "", ""⟩).property_path)
            ((prepGetD (prepare cfg supply)).allocated.getD
              (((prepGetD (prepare cfg supply)).ids.tail.length - 1 - i) *
                numRoles + j) 0) ∈
          (prepGetD (prepare cfg supply)).trace) ∧
    (∀ e ∈ (prepGetD (prepare cfg supply)).trace, ∀ n fl pa pt,
      e = Event.updatePortField n fl pa pt →
        n ≠ (prepGetD (prepare cfg supply)).lead ∧
          n ∈ (prepGetD (prepare cfg supply)).ids.tail) ∧
    (cfg.configNode = [] → ∀ j, j < numRoles →
      ((prepGetD (prepare cfg supply)).node
          ((prepGetD (prepare cfg supply)).lead)).portOf
        (portRoles.getD j ⟨"", "", ""⟩) = defaultPort j) := by
  obtain ⟨lead, rest, hd, hs⟩ := prepare_isOk_inv cfg supply h
  have hnd : (lead :: rest).Nodup := hd ▸ nodup_dedupKeys cfg.validatorIds
  have hln : lead ∉ rest := (List.nodup_cons.mp hnd).1
  rw [prepGetD_ok cfg supply lead rest hd hs]
  dsimp only
  refine ⟨?_, ?_, ?_⟩
  · intro i hi j hj
    have hi2 : i < rest.length := hi
    apply mem_trace_portSeg cfg lead rest _ _ (i, rest.getD i 0)
      (getD_mem_enum hi2)
    apply List.mem_append_right
    unfold portEventsFor
    apply List.mem_map.mpr
    refine ⟨(j, portRoles.getD j ⟨"", "", ""⟩), getD_mem_enum hj, ?_⟩
    show Event.updatePortField (rest.getD i 0)
        ((portRoles.getD j ⟨"", "", ""⟩).config_file)
        ((portRoles.getD j ⟨"", "", ""⟩).property_path)
        ((portRowFor (chunkRows (supply.take (numRoles * rest.length))
          rest.length) rest.length i).getD j 0) = _
    rw [portRowFor_getD _ rest.length i j hi2 hj]
    rfl
  · intro e he n fl pa pt heq
    rcases prepTrace_shape cfg lead rest _ e he with
      h1 | h1 | h1 | h1 | h1 | h1 | h1 | h1 | h1 | h1
    · rcases h1 with ⟨a, _, rfl⟩; exact Event.noConfusion heq
    · rcases h1 with ⟨kv, _, rfl⟩; exact Event.noConfusion heq
    · rcases h1 with ⟨en, _, rfl⟩; exact Event.noConfusion heq
    · rcases h1 with ⟨a, _, rfl⟩; exact Event.noConfusion heq
    · rcases h1 with ⟨a, _, fl2, k2, rfl⟩; exact Event.noConfusion heq
    · rcases h1 with ⟨ie, hie, jp, _, rfl⟩
      cases heq
      have hmem : ie.2 ∈ rest := List.snd_mem_of_mem_enum hie
      exact ⟨fun hc => hln (hc ▸ hmem), hmem⟩
    · rcases h1 with ⟨a, _, h2 | h2⟩ <;>
        · rw [h2] at heq; exact Event.noConfusion heq
    · rcases h1 with ⟨a, _, h2 | h2⟩ <;>
        · rw [h2] at heq; exact Event.noConfusion heq
    · rcases h1 with ⟨p, _, rfl⟩; exact Event.noConfusion heq
    · rcases h1 with ⟨a, _, rfl⟩; exact Event.noConfusion heq
  · intro hcn j hj
    rw [collected_portOf]
    have h4 : prepF4 cfg lead rest (supply.take (numRoles * rest.length))
        lead = applyNodeOverrides cfg
          (prepF3 cfg lead rest lead) :=
      prepF4_lead cfg lead rest _ hnd
    have hid : applyNodeOverrides cfg (prepF3 cfg lead rest lead) =
        prepF3 cfg lead rest lead := by
      unfold applyNodeOverrides
      rw [hcn]
      rfl
    rw [h4, hid]
    have hcfgeq : (prepF3 cfg lead rest lead).config =
        (nodeInit 0 "").config :=
      (prepF3_config cfg lead rest lead (List.nodup_cons.mp hnd).2).trans rfl
    rw [portOf_eq_of_config _ _ hcfgeq]
    revert hj
    revert j
    decide

theorem claim_c3_witness :
    (∀ i, i < (prepGetD (prepare cfgEx3 supplyEx3)).ids.tail.length →
      ∀ j, j < numRoles →
        Event.updatePortField
            ((prepGetD (prepare cfgEx3 supplyEx3)).ids.tail.getD i 0)
            ((portRoles.getD j ⟨"", "", ""⟩).config_file)
            ((portRoles.getD j ⟨"", "", ""⟩).property_path)
            ((prepGetD (prepare cfgEx3 supplyEx3)).allocated.getD
              (((prepGetD (prepare cfgEx3 supplyEx3)).ids.tail.length - 1 - i) *
                numRoles + j) 0) ∈
          (prepGetD (prepare cfgEx3 supplyEx3)).trace) ∧
    (∀ e ∈ (prepGetD (prepare cfgEx3 supplyEx3)).trace, ∀ n fl pa pt,
      e = Event.updatePortField n fl pa pt →
        n ≠ (prepGetD (prepare cfgEx3 supplyEx3)).lead ∧
          n ∈ (prepGetD (prepare cfgEx3 supplyEx3)).ids.tail) ∧
    (cfgEx3.configNode = [] → ∀ j, j < numRoles →
      ((prepGetD (prepare cfgEx3 supplyEx3)).node
          ((prepGetD (prepare cfgEx3 supplyEx3)).lead)).portOf
        (portRoles.getD j ⟨"", "", ""⟩) = defaultPort j) :=
  claim_c3 cfgEx3 supplyEx3 (by decide)

/-! Filter facts: which segments carry port-rewrite events. -/

theorem overrideEventsFor_filter_port (cfg : PrepCfg) (a : Nat) :
    (overrideEventsFor cfg a).filter isUpdatePortEv = [] := by
  apply List.filter_eq_nil_iff.mpr
  intro e he
  rcases List.mem_flatMap.mp he with ⟨fc, _, hin⟩
  rcases List.mem_map.mp hin with ⟨kv, _, rfl⟩
  simp [isUpdatePortEv]

theorem portEventsFor_filter (a : Nat) (row : List Nat) :
    (portEventsFor a row).filter isUpdatePortEv = portEventsFor a row := by
  apply List.filter_eq_self.mpr
  intro e he
  rcases List.mem_map.mp he with ⟨jp, _, rfl⟩
  rfl

theorem trInit_filter_port (lead : Nat) (rest : List Nat) :
    (trInit lead rest).filter isUpdatePortEv = [] := by
  apply List.filter_eq_nil_iff.mpr
  intro e he
  rcases List.mem_map.mp he with ⟨a, _, rfl⟩
  simp [isUpdatePortEv]

theorem trGenOverrides_filter_port (cfg : PrepCfg) (lead : Nat) :
    (trGenOverrides cfg lead).filter isUpdatePortEv = [] := by
  apply List.filter_eq_nil_iff.mpr
  intro e he
  rcases List.mem_map.mp he with ⟨kv, _, rfl⟩
  simp [isUpdatePortEv]

theorem trFund_filter_port (cfg : PrepCfg) (lead : Nat) (rest : List Nat) :
    (trFund cfg lead rest).filter isUpdatePortEv = [] := by
  apply List.filter_eq_nil_iff.mpr
  intro e he
  rcases List.mem_map.mp he with ⟨en, _, rfl⟩
  simp [isUpdatePortEv]

theorem trCopyGenesis_filter_port (lead : Nat) (rest : List Nat) :
    (trCopyGenesis lead rest).filter isUpdatePortEv = [] := by
  apply List.filter_eq_nil_iff.mpr
  intro e he
  rcases List.mem_map.mp he with ⟨a, _, rfl⟩
  simp [isUpdatePortEv]

theorem trGentx_filter_port (cfg : PrepCfg) (lead : Nat) (rest : List Nat)
    (flat : List Nat) :
    (trGentx cfg lead rest flat).filter isUpdatePortEv = [] := by
  apply List.filter_eq_nil_iff.mpr
  intro e he
  rcases List.mem_flatMap.mp he with ⟨a, _, hin⟩
  rcases mem_gentxEventsFor hin with h3 | h3 | ⟨_, h3 | h3⟩ <;>
    simp [h3, isUpdatePortEv]

theorem trExchange_filter_port (lead : Nat) (rest : List Nat) :
    (trExchange lead rest).filter isUpdatePortEv = [] := by
  apply List.filter_eq_nil_iff.mpr
  intro e he
  rcases List.mem_map.mp he with ⟨p, _, rfl⟩
  simp [isUpdatePortEv]

theorem trCollect_filter_port (lead : Nat) (rest : List Nat) :
    (trCollect lead rest).filter isUpdatePortEv = [] := by
  apply List.filter_eq_nil_iff.mpr
  intro e he
  rcases List.mem_map.mp he with ⟨a, _, rfl⟩
  simp [isUpdatePortEv]

/-- C6: `prepare()` allocates exactly one fresh port per declared role per
non-lead node — `len(ports()) * (N - 1)` ports in all — and the
listening-address rewrites are exactly one block of `numRoles` events per
non-lead node in iteration order, drawn from the allocated rows; in
particular the lead's listening-address fields are never rewritten.
Declared config overrides are applied to every node, the lead included. -/
theorem claim_c6 (cfg : PrepCfg) (supply : List Nat)
    (h : (prepare cfg supply).isOk = true) :
    (prepGetD (prepare cfg supply)).allocated.length =
      numRoles * ((prepGetD (prepare cfg supply)).ids.length - 1) ∧
    (prepGetD (prepare cfg supply)).trace.filter isUpdatePortEv =
      (prepGetD (prepare cfg supply)).ids.tail.enum.flatMap
        (fun ie => portEventsFor ie.2
          (portRowFor
            (chunkRows (prepGetD (prepare cfg supply)).allocated
              (prepGetD (prepare cfg supply)).ids.tail.length)
            (prepGetD (prepare cfg supply)).ids.tail.length ie.1)) ∧
    (∀ a ∈ (prepGetD (prepare cfg supply)).ids, ∀ fc ∈ cfg.configNode,
      ∀ kv ∈ fc.2,
        Event.setConfig a ("config/" ++ fc.1 ++ ".toml") kv.1 ∈
          (prepGetD (prepare cfg supply)).trace) := by
  obtain ⟨lead, rest, hd, hs⟩ := prepare_isOk_inv cfg supply h
  have hnd : (lead :: rest).Nodup := hd ▸ nodup_dedupKeys cfg.validatorIds
  rw [prepGetD_ok cfg supply lead rest hd hs]
  dsimp only
  refine ⟨?_, ?_, ?_⟩
  · rw [List.length_take]
    show numRoles * rest.length ⊓ supply.length = numRoles * rest.length
    exact Nat.min_eq_left hs
  · unfold prepTrace trBeforeCollect trConfigPorts
    simp only [List.filter_append, trInit_filter_port,
      trGenOverrides_filter_port, trFund_filter_port,
      trCopyGenesis_filter_port, trGentx_filter_port,
      trExchange_filter_port, trCollect_filter_port,
      overrideEventsFor_filter_port, List.nil_append, List.append_nil]
    rw [List.filter_flatMap]
    apply flatMap_congr_mem
    intro ie _
    rw [List.filter_append, overrideEventsFor_filter_port, portEventsFor_filter,
      List.nil_append]
    rfl
  · intro a ha fc hfc kv hkv
    rcases List.mem_cons.mp ha with hlead | harest
    · apply mem_trace_overrideLead
      unfold overrideEventsFor
      rw [hlead]
      exact List.mem_flatMap.mpr ⟨fc, hfc, List.mem_map.mpr ⟨kv, hkv, rfl⟩⟩
    · rcases List.mem_iff_getElem.mp harest with ⟨i, hi, hrg⟩
      have hie : (i, a) ∈ rest.enum := by
        have hlen : i < rest.enum.length := by
          rw [List.enum_length]
          exact hi
        rw [← hrg, ← List.getElem_enum rest i hlen]
        exact List.getElem_mem hlen
      apply mem_trace_portSeg cfg lead rest _ _ (i, a) hie
      apply List.mem_append_left
      unfold overrideEventsFor
      exact List.mem_flatMap.mpr ⟨fc, hfc, List.mem_map.mpr ⟨kv, hkv, rfl⟩⟩

theorem claim_c6_witness :
    ((prepGetD (prepare cfgEx supplyEx)).allocated.length =
      numRoles * ((prepGetD (prepare cfgEx supplyEx)).ids.length - 1) ∧
    (prepGetD (prepare cfgEx supplyEx)).trace.filter isUpdatePortEv =
      (prepGetD (prepare cfgEx supplyEx)).ids.tail.enum.flatMap
        (fun ie => portEventsFor ie.2
          (portRowFor
            (chunkRows (prepGetD (prepare cfgEx supplyEx)).allocated
              (prepGetD (prepare cfgEx supplyEx)).ids.tail.length)
            (prepGetD (prepare cfgEx supplyEx)).ids.tail.length ie.1)) ∧
    (∀ a ∈ (prepGetD (prepare cfgEx supplyEx)).ids, ∀ fc ∈ cfgEx.configNode,
      ∀ kv ∈ fc.2,
        Event.setConfig a ("config/" ++ fc.1 ++ ".toml") kv.1 ∈
          (prepGetD (prepare cfgEx supplyEx)).trace)) ∧
    cfgEx.configNode ≠ [] :=
  ⟨claim_c6 cfgEx supplyEx (by decide), by decide⟩

/-- C5: during `prepare()` every non-lead node — and only non-lead nodes —
rewrites its own gentx memo to carry its own p2p port and then re-signs
the file with its own validator key; every memo-rewrite position in the
trace precedes every re-sign position for that node, and the lead's gentx
is never edited or re-signed. -/
theorem claim_c5 (cfg : PrepCfg) (supply : List Nat)
    (h : (prepare cfg supply).isOk = true) :
    (∀ a ∈ (prepGetD (prepare cfg supply)).ids,
      a ≠ (prepGetD (prepare cfg supply)).lead →
        Event.updateGentxMemo a
            (((prepGetD (prepare cfg supply)).node a).portOf p2pRole) ∈
          (prepGetD (prepare cfg supply)).trace ∧
        Event.signGentx a a ∈ (prepGetD (prepare cfg supply)).trace ∧
        (∀ i j (hi : i < (prepGetD (prepare cfg supply)).trace.length)
            (hj : j < (prepGetD (prepare cfg supply)).trace.length),
          isMemoUpdFor a
            ((prepGetD (prepare cfg supply)).trace.get ⟨i, hi⟩) = true →
          isSignFor a
            ((prepGetD (prepare cfg supply)).trace.get ⟨j, hj⟩) = true →
            i < j)) ∧
    (∀ e ∈ (prepGetD (prepare cfg supply)).trace, ∀ n p,
      e = Event.updateGentxMemo n p →
        n ≠ (prepGetD (prepare cfg supply)).lead ∧
          n ∈ (prepGetD (prepare cfg supply)).ids ∧
          p = ((prepGetD (prepare cfg supply)).node n).portOf p2pRole) ∧
    (∀ e ∈ (prepGetD (prepare cfg supply)).trace, ∀ n s,
      e = Event.signGentx n s →
        n ≠ (prepGetD (prepare cfg supply)).lead ∧
          n ∈ (prepGetD (prepare cfg supply)).ids ∧ s = n) := by
  obtain ⟨lead, rest, hd, hs⟩ := prepare_isOk_inv cfg supply h
  have hnd : (lead :: rest).Nodup := hd ▸ nodup_dedupKeys cfg.validatorIds
  have hln : lead ∉ rest := (List.nodup_cons.mp hnd).1
  rw [prepGetD_ok cfg supply lead rest hd hs]
  dsimp only
  refine ⟨?_, ?_, ?_⟩
  · intro a ha hal
    have har : a ∈ rest := by
      rcases List.mem_cons.mp ha with h2 | h2
      · exact absurd h2 hal
      · exact h2
    have hBa : gentxEventsFor cfg lead a
        (prepF4 cfg lead rest (supply.take (numRoles * rest.length)) a) =
        [Event.addKey a, Event.addValidator a cfg.validatorBalance,
         Event.updateGentxMemo a ((prepF4 cfg lead rest
           (supply.take (numRoles * rest.length)) a).portOf p2pRole),
         Event.signGentx a a] := by
      unfold gentxEventsFor
      rw [if_pos hal]
      rfl
    refine ⟨?_, ?_, ?_⟩
    · rw [collected_portOf]
      apply mem_trace_gentxSeg cfg lead rest _ _ a ha
      rw [hBa]
      exact List.mem_cons_of_mem _ (List.mem_cons_of_mem _
        (List.mem_cons_self _ _))
    · apply mem_trace_gentxSeg cfg lead rest _ _ a ha
      rw [hBa]
      exact List.mem_cons_of_mem _ (List.mem_cons_of_mem _
        (List.mem_cons_of_mem _ (List.mem_cons_self _ _)))
    · obtain ⟨s2, t2, hrest⟩ := List.append_of_mem har
      have hrnd : rest.Nodup := (List.nodup_cons.mp hnd).2
      have hand : (s2 ++ a :: t2).Nodup := hrest ▸ hrnd
      rcases List.nodup_append.mp hand with ⟨hs2nd, hatnd, hdisj⟩
      have hanott : a ∉ t2 := (List.nodup_cons.mp hatnd).1
      have hanots : a ∉ s2 := fun hc =>
        (List.disjoint_left.mp hdisj hc) (List.mem_cons_self _ _)
      have hblead : ∀ b ∈ lead :: s2, b ≠ a := by
        intro b hb
        rcases List.mem_cons.mp hb with h2 | h2
        · intro hc
          rw [h2] at hc
          exact hln (hc ▸ har)
        · exact fun hc => hanots (hc ▸ h2)
      have hv : lead :: rest = (lead :: s2) ++ a :: t2 := by
        rw [hrest]
        rfl
      have hgsplit : trGentx cfg lead rest
          (supply.take (numRoles * rest.length)) =
          (lead :: s2).flatMap (fun b => gentxEventsFor cfg lead b
            (prepF4 cfg lead rest (supply.take (numRoles * rest.length)) b)) ++
          (gentxEventsFor cfg lead a
            (prepF4 cfg lead rest (supply.take (numRoles * rest.length)) a) ++
           t2.flatMap (fun b => gentxEventsFor cfg lead b
            (prepF4 cfg lead rest (supply.take (numRoles * rest.length)) b))) := by
        unfold trGentx
        rw [hv, List.flatMap_append, List.flatMap_cons, List.flatMap_cons]
      have hsplit : prepTrace cfg lead rest
          (supply.take (numRoles * rest.length)) =
          ((trInit lead rest ++ trGenOverrides cfg lead ++
            trFund cfg lead rest ++ trCopyGenesis lead rest ++
            trConfigPorts cfg lead rest
              (supply.take (numRoles * rest.length))) ++
           ((lead :: s2).flatMap (fun b => gentxEventsFor cfg lead b
              (prepF4 cfg lead rest (supply.take (numRoles * rest.length)) b)) ++
            [Event.addKey a, Event.addValidator a cfg.validatorBalance,
             Event.updateGentxMemo a ((prepF4 cfg lead rest
               (supply.take (numRoles * rest.length)) a).portOf p2pRole)])) ++
          (Event.signGentx a a ::
            (t2.flatMap (fun b => gentxEventsFor cfg lead b
              (prepF4 cfg lead rest (supply.take (numRoles * rest.length)) b)) ++
             (trExchange lead rest ++ trCollect lead rest))) := by
        unfold prepTrace trBeforeCollect
        rw [hgsplit, hBa]
        simp only [List.append_assoc, List.cons_append, List.nil_append]
      refine sep_indices_of_eq _ _ _ (isMemoUpdFor a) (isSignFor a)
        hsplit ?_ ?_
      · intro e he
        rcases List.mem_cons.mp he with h2 | h2
        · rw [h2]
          rfl
        rcases List.mem_append.mp h2 with h2 | h2
        · rcases List.mem_flatMap.mp h2 with ⟨b, hb, hin⟩
          exact (gentxEventsFor_other cfg lead a b _
            (fun hc => hanott (hc ▸ hb)) e hin).1
        rcases List.mem_append.mp h2 with h2 | h2
        · unfold trExchange at h2
          rcases List.mem_map.mp h2 with ⟨p, _, rfl⟩
          rfl
        · unfold trCollect at h2
          rcases List.mem_map.mp h2 with ⟨b, _, rfl⟩
          rfl
      · intro e he
        rcases List.mem_append.mp he with h2 | h2
        · exact (trPre5_no_gentx_events cfg lead rest _ e h2 a).2
        rcases List.mem_append.mp h2 with h2 | h2
        · rcases List.mem_flatMap.mp h2 with ⟨b, hb, hin⟩
          exact (gentxEventsFor_other cfg lead a b _ (hblead b hb) e hin).2
        · rcases List.mem_cons.mp h2 with h3 | h3
          · rw [h3]
            rfl
          rcases List.mem_cons.mp h3 with h4 | h4
          · rw [h4]
            rfl
          rcases List.mem_cons.mp h4 with h5 | h5
          · rw [h5]
            rfl
          · cases h5
  · intro e he n p heq
    rcases prepTrace_shape cfg lead rest _ e he with
      h1 | h1 | h1 | h1 | h1 | h1 | h1 | h1 | h1 | h1
    · rcases h1 with ⟨a, _, rfl⟩; exact Event.noConfusion heq
    · rcases h1 with ⟨kv, _, rfl⟩; exact Event.noConfusion heq
    · rcases h1 with ⟨en, _, rfl⟩; exact Event.noConfusion heq
    · rcases h1 with ⟨a, _, rfl⟩; exact Event.noConfusion heq
    · rcases h1 with ⟨a, _, fl, k, rfl⟩; exact Event.noConfusion heq
    · rcases h1 with ⟨ie, _, jp, _, rfl⟩; exact Event.noConfusion heq
    · rcases h1 with ⟨a, _, h2 | h2⟩ <;>
        · rw [h2] at heq; exact Event.noConfusion heq
    · rcases h1 with ⟨a, har, h2 | h2⟩
      · rw [h2] at heq
        cases heq
        refine ⟨fun hc => hln (hc ▸ har), List.mem_cons_of_mem _ har, ?_⟩
        rw [collected_portOf]
      · rw [h2] at heq; exact Event.noConfusion heq
    · rcases h1 with ⟨p2, _, rfl⟩; exact Event.noConfusion heq
    · rcases h1 with ⟨a, _, rfl⟩; exact Event.noConfusion heq
  · intro e he n s heq
    rcases prepTrace_shape cfg lead rest _ e he with
      h1 | h1 | h1 | h1 | h1 | h1 | h1 | h1 | h1 | h1
    · rcases h1 with ⟨a, _, rfl⟩; exact Event.noConfusion heq
    · rcases h1 with ⟨kv, _, rfl⟩; exact Event.noConfusion heq
    · rcases h1 with ⟨en, _, rfl⟩; exact Event.noConfusion heq
    · rcases h1 with ⟨a, _, rfl⟩; exact Event.noConfusion heq
    · rcases h1 with ⟨a, _, fl, k, rfl⟩; exact Event.noConfusion heq
    · rcases h1 with ⟨ie, _, jp, _, rfl⟩; exact Event.noConfusion heq
    · rcases h1 with ⟨a, _, h2 | h2⟩ <;>
        · rw [h2] at heq; exact Event.noConfusion heq
    · rcases h1 with ⟨a, har, h2 | h2⟩
      · rw [h2] at heq; exact Event.noConfusion heq
      · rw [h2] at heq
        cases heq
        exact ⟨fun hc => hln (hc ▸ har), List.mem_cons_of_mem _ har, rfl⟩
    · rcases h1 with ⟨p2, _, rfl⟩; exact Event.noConfusion heq
    · rcases h1 with ⟨a, _, rfl⟩; exact Event.noConfusion heq

theorem claim_c5_witness :
    (∀ a ∈ (prepGetD (prepare cfgEx3 supplyEx3)).ids,
      a ≠ (prepGetD (prepare cfgEx3 supplyEx3)).lead →
        Event.updateGentxMemo a
            (((prepGetD (prepare cfgEx3 supplyEx3)).node a).portOf p2pRole) ∈
          (prepGetD (prepare cfgEx3 supplyEx3)).trace ∧
        Event.signGentx a a ∈ (prepGetD (prepare cfgEx3 supplyEx3)).trace ∧
        (∀ i j (hi : i < (prepGetD (prepare cfgEx3 supplyEx3)).trace.length)
            (hj : j < (prepGetD (prepare cfgEx3 supplyEx3)).trace.length),
          isMemoUpdFor a
            ((prepGetD (prepare cfgEx3 supplyEx3)).trace.get ⟨i, hi⟩) = true →
          isSignFor a
            ((prepGetD (prepare cfgEx3 supplyEx3)).trace.get ⟨j, hj⟩) = true →
            i < j)) ∧
    (∀ e ∈ (prepGetD (prepare cfgEx3 supplyEx3)).trace, ∀ n p,
      e = Event.updateGentxMemo n p →
        n ≠ (prepGetD (prepare cfgEx3 supplyEx3)).lead ∧
          n ∈ (prepGetD (prepare cfgEx3 supplyEx3)).ids ∧
          p = ((prepGetD (prepare cfgEx3 supplyEx3)).node n).portOf p2pRole) ∧
    (∀ e ∈ (prepGetD (prepare cfgEx3 supplyEx3)).trace, ∀ n s,
      e = Event.signGentx n s →
        n ≠ (prepGetD (prepare cfgEx3 supplyEx3)).lead ∧
          n ∈ (prepGetD (prepare cfgEx3 supplyEx3)).ids ∧ s = n) :=
  claim_c5 cfgEx3 supplyEx3 (by decide)

/-- C4: during `prepare()` no node invokes `collect_gentx` before the
all-pairs exchange has completed — every exchange-copy position in the
trace strictly precedes every collect position; the exchange imports, for
every ordered pair of distinct nodes (A, B), B's gentx into A and only
such pairs; and when collection runs every node holds every peer's gentx,
so every validator id is represented in every node's collected set. -/
theorem claim_c4 (cfg : PrepCfg) (supply : List Nat)
    (h : (prepare cfg supply).isOk = true) :
    (∀ i j (hi : i < (prepGetD (prepare cfg supply)).trace.length)
        (hj : j < (prepGetD (prepare cfg supply)).trace.length),
      isCopyGentxEv ((prepGetD (prepare cfg supply)).trace.get ⟨i, hi⟩) = true →
      isCollectEv ((prepGetD (prepare cfg supply)).trace.get ⟨j, hj⟩) = true →
        i < j) ∧
    (∀ a ∈ (prepGetD (prepare cfg supply)).ids,
      ∀ b ∈ (prepGetD (prepare cfg supply)).ids, a ≠ b →
        Event.copyGentxFrom a b ∈ (prepGetD (prepare cfg supply)).trace) ∧
    (∀ e ∈ (prepGetD (prepare cfg supply)).trace, ∀ d s,
      e = Event.copyGentxFrom d s →
        d ∈ (prepGetD (prepare cfg supply)).ids ∧
          s ∈ (prepGetD (prepare cfg supply)).ids ∧ d ≠ s) ∧
    (∀ a ∈ (prepGetD (prepare cfg supply)).ids,
      ∀ v ∈ (prepGetD (prepare cfg supply)).ids,
        ∃ g ∈ ((prepGetD (prepare cfg supply)).node a).genesis.gentxs,
          g.valId = v) := by
  obtain ⟨lead, rest, hd, hs⟩ := prepare_isOk_inv cfg supply h
  have hnd : (lead :: rest).Nodup := hd ▸ nodup_dedupKeys cfg.validatorIds
  rw [prepGetD_ok cfg supply lead rest hd hs]
  dsimp only
  refine ⟨?_, ?_, ?_, ?_⟩
  · have h1 : ∀ e ∈ trCollect lead rest, isCopyGentxEv e = false := by
      intro e he
      unfold trCollect at he
      rcases List.mem_map.mp he with ⟨a, _, rfl⟩
      rfl
    have h2 := trBeforeCollect_no_collect cfg lead rest
      (supply.take (numRoles * rest.length))
    exact sep_indices (trBeforeCollect cfg lead rest
        (supply.take (numRoles * rest.length)))
      (trCollect lead rest) isCopyGentxEv isCollectEv h1 h2
  · intro a ha b hb hne
    exact mem_trace_exchange cfg lead rest _ (a, b)
      (mem_exchangePairs.mpr ⟨ha, hb, fun hc => hne hc.symm⟩)
  · intro e he d s heq
    rcases prepTrace_shape cfg lead rest _ e he with
      h1 | h1 | h1 | h1 | h1 | h1 | h1 | h1 | h1 | h1
    · rcases h1 with ⟨a, _, rfl⟩; exact Event.noConfusion heq
    · rcases h1 with ⟨kv, _, rfl⟩; exact Event.noConfusion heq
    · rcases h1 with ⟨en, _, rfl⟩; exact Event.noConfusion heq
    · rcases h1 with ⟨a, _, rfl⟩; exact Event.noConfusion heq
    · rcases h1 with ⟨a, _, fl, k, rfl⟩; exact Event.noConfusion heq
    · rcases h1 with ⟨ie, _, jp, _, rfl⟩; exact Event.noConfusion heq
    · rcases h1 with ⟨a, _, h2 | h2⟩ <;>
        · rw [h2] at heq; exact Event.noConfusion heq
    · rcases h1 with ⟨a, _, h2 | h2⟩ <;>
        · rw [h2] at heq; exact Event.noConfusion heq
    · rcases h1 with ⟨p, hp, rfl⟩
      cases heq
      rcases mem_exchangePairs.mp hp with ⟨hp1, hp2, hp3⟩
      exact ⟨hp1, hp2, fun hc => hp3 hc.symm⟩
    · rcases h1 with ⟨a, _, rfl⟩; exact Event.noConfusion heq
  · intro a ha v hv
    have hdir := prepF6_dir cfg lead rest
      (supply.take (numRoles * rest.length)) a hnd ha
    have hgen := collected_genesis cfg lead rest
      (supply.take (numRoles * rest.length)) a hnd ha
    rw [hgen]
    show ∃ g ∈ (prepF6 cfg lead rest
      (supply.take (numRoles * rest.length)) a).gentxDir, g.valId = v
    rw [hdir]
    by_cases hva : v = a
    · exact ⟨gtxOf cfg lead a _, List.mem_cons_self _ _, hva ▸ gtxOf_valId _ _ _ _⟩
    · refine ⟨gtxOf cfg lead v _, List.mem_cons_of_mem _ (List.mem_map.mpr
        ⟨v, List.mem_filter.mpr ⟨hv, decide_eq_true hva⟩, rfl⟩),
        gtxOf_valId _ _ _ _⟩

theorem claim_c4_witness :
    (∀ i j (hi : i < (prepGetD (prepare cfgEx3 supplyEx3)).trace.length)
        (hj : j < (prepGetD (prepare cfgEx3 supplyEx3)).trace.length),
      isCopyGentxEv
        ((prepGetD (prepare cfgEx3 supplyEx3)).trace.get ⟨i, hi⟩) = true →
      isCollectEv
        ((prepGetD (prepare cfgEx3 supplyEx3)).trace.get ⟨j, hj⟩) = true →
        i < j) ∧
    (∀ a ∈ (prepGetD (prepare cfgEx3 supplyEx3)).ids,
      ∀ b ∈ (prepGetD (prepare cfgEx3 supplyEx3)).ids, a ≠ b →
        Event.copyGentxFrom a b ∈ (prepGetD (prepare cfgEx3 supplyEx3)).trace) ∧
    (∀ e ∈ (prepGetD (prepare cfgEx3 supplyEx3)).trace, ∀ d s,
      e = Event.copyGentxFrom d s →
        d ∈ (prepGetD (prepare cfgEx3 supplyEx3)).ids ∧
          s ∈ (prepGetD (prepare cfgEx3 supplyEx3)).ids ∧ d ≠ s) ∧
    (∀ a ∈ (prepGetD (prepare cfgEx3 supplyEx3)).ids,
      ∀ v ∈ (prepGetD (prepare cfgEx3 supplyEx3)).ids,
        ∃ g ∈ ((prepGetD (prepare cfgEx3 supplyEx3)).node a).genesis.gentxs,
          g.valId = v) :=
  claim_c4 cfgEx3 supplyEx3 (by decide)

/-- C1: for every validator count N ≥ 1 (a successful `prepare` implies
N ≥ 1), after `prepare()` completes successfully every node's genesis
encodes the identical validator set — the same multiset of decoded gentxs,
hence the same operator addresses and stake amounts — and identical initial
balances, independent of file byte layout: the statement compares decoded
values, and the validator set as a set (the directory listing order in
which the binary folds the gentx files is the only per-node difference). -/
theorem claim_c1 (cfg : PrepCfg) (supply : List Nat)
    (h : (prepare cfg supply).isOk = true) :
    ∀ a ∈ (prepGetD (prepare cfg supply)).ids,
      ∀ b ∈ (prepGetD (prepare cfg supply)).ids,
        ((prepGetD (prepare cfg supply)).node a).genesis.balances =
          ((prepGetD (prepare cfg supply)).node b).genesis.balances ∧
        List.Perm ((prepGetD (prepare cfg supply)).node a).genesis.gentxs
          ((prepGetD (prepare cfg supply)).node b).genesis.gentxs ∧
        List.Perm
          (((prepGetD (prepare cfg supply)).node a).genesis.gentxs.map
            (fun g => (g.opAddr, g.stake)))
          (((prepGetD (prepare cfg supply)).node b).genesis.gentxs.map
            (fun g => (g.opAddr, g.stake))) := by
  obtain ⟨lead, rest, hd, hs⟩ := prepare_isOk_inv cfg supply h
  have hnd : (lead :: rest).Nodup := hd ▸ nodup_dedupKeys cfg.validatorIds
  rw [prepGetD_ok cfg supply lead rest hd hs]
  dsimp only
  intro a ha b hb
  have hbal : ∀ x, x ∈ lead :: rest →
      (collectedMap (lead :: rest)
        (prepF6 cfg lead rest (supply.take (numRoles * rest.length)))
          x).genesis.balances =
        (prepF2 cfg lead rest lead).genesis.balances := by
    intro x hx
    rw [collected_genesis cfg lead rest _ x hnd hx]
  have hperm : ∀ x, x ∈ lead :: rest →
      List.Perm
        ((collectedMap (lead :: rest)
          (prepF6 cfg lead rest (supply.take (numRoles * rest.length)))
            x).genesis.gentxs)
        ((lead :: rest).map (fun c => gtxOf cfg lead c
          (prepF4 cfg lead rest (supply.take (numRoles * rest.length)) c))) := by
    intro x hx
    rw [collected_genesis cfg lead rest _ x hnd hx]
    show List.Perm
      ((prepF6 cfg lead rest (supply.take (numRoles * rest.length))
        x).gentxDir) _
    rw [prepF6_dir cfg lead rest _ x hnd hx]
    have hp := (perm_cons_filter x (lead :: rest) hx hnd).map
      (fun c => gtxOf cfg lead c
        (prepF4 cfg lead rest (supply.take (numRoles * rest.length)) c))
    simpa using hp
  refine ⟨?_, ?_, ?_⟩
  · rw [hbal a ha, hbal b hb]
  · exact (hperm a ha).trans (hperm b hb).symm
  · exact ((hperm a ha).trans (hperm b hb).symm).map _

theorem claim_c1_witness :
    ((prepGetD (prepare cfgEx3 supplyEx3)).node 4).genesis.balances =
      ((prepGetD (prepare cfgEx3 supplyEx3)).node 7).genesis.balances ∧
    List.Perm ((prepGetD (prepare cfgEx3 supplyEx3)).node 4).genesis.gentxs
      ((prepGetD (prepare cfgEx3 supplyEx3)).node 7).genesis.gentxs ∧
    List.Perm
      (((prepGetD (prepare cfgEx3 supplyEx3)).node 4).genesis.gentxs.map
        (fun g => (g.opAddr, g.stake)))
      (((prepGetD (prepare cfgEx3 supplyEx3)).node 7).genesis.gentxs.map
        (fun g => (g.opAddr, g.stake))) :=
  claim_c1 cfgEx3 supplyEx3 (by decide) 4 (by decide) 7 (by decide)

/-- C10: in `prepare()`, validator identities are funded on the lead with
`account_balance` — the same amount as plain accounts — never with
`validator_balance`; `validator_balance` appears only as the self-stake
amount handed to `add_validator`, hence as the stake of every collected
gentx. -/
theorem claim_c10 (cfg : PrepCfg) (supply : List Nat)
    (h : (prepare cfg supply).isOk = true) :
    (∀ v ∈ (prepGetD (prepare cfg supply)).ids,
      (addrOf v, cfg.accountBalance) ∈
        ((prepGetD (prepare cfg supply)).node
          ((prepGetD (prepare cfg supply)).lead)).genesis.balances) ∧
    (∀ e ∈ (prepGetD (prepare cfg supply)).trace, ∀ a addr amt,
      e = Event.addAccount a addr amt → amt = cfg.accountBalance) ∧
    (∀ e ∈ (prepGetD (prepare cfg supply)).trace, ∀ a amt,
      e = Event.addValidator a amt → amt = cfg.validatorBalance) ∧
    (∀ x ∈ (prepGetD (prepare cfg supply)).ids,
      ∀ g ∈ ((prepGetD (prepare cfg supply)).node x).genesis.gentxs,
        g.stake = cfg.validatorBalance) := by
  obtain ⟨lead, rest, hd, hs⟩ := prepare_isOk_inv cfg supply h
  have hnd : (lead :: rest).Nodup := hd ▸ nodup_dedupKeys cfg.validatorIds
  rw [prepGetD_ok cfg supply lead rest hd hs]
  dsimp only
  refine ⟨?_, ?_, ?_, ?_⟩
  · intro v hv
    rw [collected_genesis cfg lead rest _ lead hnd (List.mem_cons_self _ _)]
    show (addrOf v, cfg.accountBalance) ∈
      (prepF2 cfg lead rest lead).genesis.balances
    rw [prepF2_lead_balances]
    unfold fundEntries
    exact List.mem_append_left _ (List.mem_map.mpr ⟨v, hv, rfl⟩)
  · intro e he a addr amt heq
    rcases prepTrace_shape cfg lead rest _ e he with
      h1 | h1 | h1 | h1 | h1 | h1 | h1 | h1 | h1 | h1
    · rcases h1 with ⟨a2, _, rfl⟩; exact Event.noConfusion heq
    · rcases h1 with ⟨kv, _, rfl⟩; exact Event.noConfusion heq
    · rcases h1 with ⟨en, hen, rfl⟩
      have h2 : en.2 = amt := by
        cases heq
        rfl
      rw [← h2]
      unfold fundEntries at hen
      rcases List.mem_append.mp hen with h3 | h3 <;>
        · rcases List.mem_map.mp h3 with ⟨w, _, rfl⟩
          rfl
    · rcases h1 with ⟨a2, _, rfl⟩; exact Event.noConfusion heq
    · rcases h1 with ⟨a2, _, fl, k, rfl⟩; exact Event.noConfusion heq
    · rcases h1 with ⟨ie, _, jp, _, rfl⟩; exact Event.noConfusion heq
    · rcases h1 with ⟨a2, _, h2 | h2⟩ <;>
        · rw [h2] at heq; exact Event.noConfusion heq
    · rcases h1 with ⟨a2, _, h2 | h2⟩ <;>
        · rw [h2] at heq; exact Event.noConfusion heq
    · rcases h1 with ⟨p, _, rfl⟩; exact Event.noConfusion heq
    · rcases h1 with ⟨a2, _, rfl⟩; exact Event.noConfusion heq
  · intro e he a amt heq
    rcases prepTrace_shape cfg lead rest _ e he with
      h1 | h1 | h1 | h1 | h1 | h1 | h1 | h1 | h1 | h1
    · rcases h1 with ⟨a2, _, rfl⟩; exact Event.noConfusion heq
    · rcases h1 with ⟨kv, _, rfl⟩; exact Event.noConfusion heq
    · rcases h1 with ⟨en, _, rfl⟩; exact Event.noConfusion heq
    · rcases h1 with ⟨a2, _, rfl⟩; exact Event.noConfusion heq
    · rcases h1 with ⟨a2, _, fl, k, rfl⟩; exact Event.noConfusion heq
    · rcases h1 with ⟨ie, _, jp, _, rfl⟩; exact Event.noConfusion heq
    · rcases h1 with ⟨a2, _, h2 | h2⟩
      · rw [h2] at heq; exact Event.noConfusion heq
      · rw [h2] at heq
        injection heq with e1 e2
        exact e2.symm
    · rcases h1 with ⟨a2, _, h2 | h2⟩ <;>
        · rw [h2] at heq; exact Event.noConfusion heq
    · rcases h1 with ⟨p, _, rfl⟩; exact Event.noConfusion heq
    · rcases h1 with ⟨a2, _, rfl⟩; exact Event.noConfusion heq
  · intro x hx g hg
    rw [collected_genesis cfg lead rest _ x hnd hx] at hg
    have hg2 : g ∈ (prepF6 cfg lead rest
        (supply.take (numRoles * rest.length)) x).gentxDir := hg
    rw [prepF6_dir cfg lead rest _ x hnd hx] at hg2
    rcases List.mem_cons.mp hg2 with h2 | h2
    · rw [h2]
      exact gtxOf_stake cfg lead x _
    · rcases List.mem_map.mp h2 with ⟨b, _, rfl⟩
      exact gtxOf_stake cfg lead b _

theorem claim_c10_witness :
    ((∀ v ∈ (prepGetD (prepare cfgEx supplyEx)).ids,
      (addrOf v, cfgEx.accountBalance) ∈
        ((prepGetD (prepare cfgEx supplyEx)).node
          ((prepGetD (prepare cfgEx supplyEx)).lead)).genesis.balances) ∧
    (∀ e ∈ (prepGetD (prepare cfgEx supplyEx)).trace, ∀ a addr amt,
      e = Event.addAccount a addr amt → amt = cfgEx.accountBalance) ∧
    (∀ e ∈ (prepGetD (prepare cfgEx supplyEx)).trace, ∀ a amt,
      e = Event.addValidator a amt → amt = cfgEx.validatorBalance) ∧
    (∀ x ∈ (prepGetD (prepare cfgEx supplyEx)).ids,
      ∀ g ∈ ((prepGetD (prepare cfgEx supplyEx)).node x).genesis.gentxs,
        g.stake = cfgEx.validatorBalance)) ∧
    cfgEx.accountBalance ≠ cfgEx.validatorBalance :=
  ⟨claim_c10 cfgEx supplyEx (by decide), by decide⟩

end Atomkraft
